import Mathlib

/-!
# A shallow embedding of the DNS payload decoder and aggregator (package `dns`)

The Go sources `decode.go`, `maps.go` and `stater.go` are rendered as pure Lean
functions.

Modelling conventions.

* The decoder is given twice. First on a `List Byte`, which is a Go `[]byte`
  whose capacity equals its length; then, in the namespace `Buf`, on any Go
  `[]byte`, given by its octets below the length and the octets of its backing
  array between length and capacity. `Buf_DecodePayload_nil_spare` shows that
  the two agree on a buffer without spare capacity. A slice expression
  `b[lo:hi]` and an index expression `b[i]` that Go would reject with a
  run-time panic yield `DecodeError.outOfBounds`.
* A Go `string` produced from packet bytes (`Question.QueryName`) is the list of
  its bytes; strings taken from the lookup tables are Lean strings.
* The field `Type` of `Query` and `Question` is spelled `Type_` (`Type` is a
  Lean keyword).
* Go `int` is `Int`, `uintN` is `Nat` (every value stored is built from one or
  two bytes, so it is in range by construction).
* The `for` loop of `decodeQuestion` has no post statement and can spin; it is
  modelled with a fuel counter that bounds the number of executed loop bodies.
  `none` means that the fuel ran out, `some (.error _)` a run-time panic,
  `some (.ok _)` a normal return.
-/

namespace dns

/-- One octet of a packet. -/
abbrev Byte := Fin 256

/-- The only way decoding can fail: a Go run-time panic for an index or slice
bound outside the buffer. -/
inductive DecodeError where
  | outOfBounds
deriving DecidableEq, Repr

/-! ## Constants of `decode.go` -/

def OpCodeMask : Nat := 0x78
def RCodeMask : Nat := 0x0F
def ANLabelMask : Nat := 0xC0
def ANLengthMask : Nat := 0x3F
def QRFlag : Nat := 1 <<< 7
def AAFlag : Nat := 1 <<< 2
def TCFlag : Nat := 1 <<< 1
def RDFlag : Nat := 1 <<< 0
def RAFlag : Nat := 1 <<< 7

/-! ## Lookup tables of `maps.go` -/

def QRTypes : List (Nat × String) :=
  [(0, "Query"), (1, "Response")]

def OpCodes : List (Nat × String) :=
  [(0, "Query"), (1, "IQuery"), (2, "Status"), (3, "Unassigned"), (4, "Notify"),
   (5, "Update")]

def RCodes : List (Nat × String) :=
  [(0, "NoError"), (1, "FormErr"), (2, "ServFail"), (3, "NXDomain"), (4, "NotImp"),
   (5, "Refused"), (6, "YXDomain"), (7, "YXRRSet"), (8, "NXRRSet"), (9, "NotAuth"),
   (10, "NotZone"), (16, "BADVERS"), (17, "BADSIG"), (18, "BADTIME"),
   (19, "BADMODE"), (20, "BADNAME"), (21, "BADALG"), (22, "BADTRUNC"),
   (23, "BADCOOKIE")]

def QTypes : List (Nat × String) :=
  [(1, "A"), (28, "AAAA"), (18, "AFSDB"), (42, "APL"), (257, "CAA"),
   (60, "CDNSKEY"), (59, "CDS"), (37, "CERT"), (5, "CNAME"), (49, "DHCID"),
   (32769, "DLV"), (32, "DNAME"), (48, "DNSKEY"), (43, "DS"), (55, "HIP"),
   (45, "IPSECKEY"), (25, "KEY"), (36, "KX"), (29, "LOC"), (15, "MX"),
   (35, "NAPTR"), (2, "NS"), (47, "NSEC"), (50, "NSEC3"), (51, "NSEC3PARAM"),
   (61, "OPENPGPKEY"), (12, "PTR"), (46, "RRSIG"), (17, "RP"), (24, "SIG"),
   (6, "SOA"), (33, "SRV"), (44, "SSHFP"), (32768, "TA"), (249, "TKEY"),
   (52, "TLSA"), (250, "TSIG"), (16, "TXT"), (256, "URI")]

def QClasses : List (Nat × String) :=
  [(0, "Reserved"), (1, "Internet"), (3, "Chaos"), (4, "Hesiod"),
   (254, "QCLASS NONE"), (255, "QCLASS *(ANY)")]

/-- Go's one-result map read `m[k]`: the zero value (the empty string) when the
key is absent. -/
def mapGet (m : List (Nat × String)) (k : Nat) : String :=
  (m.lookup k).getD ""

/-! ## Data model of `decode.go` -/

structure Header where
  ID : Nat := 0
  QR : Int := 0
  OpCode : Nat := 0
  AA : Int := 0
  TC : Int := 0
  RD : Int := 0
  RA : Int := 0
  RCode : Int := 0
  QDCount : Nat := 0
  ANCount : Nat := 0
  NSCount : Nat := 0
  ARCount : Nat := 0
  Length : Nat := 0
deriving DecidableEq, Repr

structure Question where
  QueryName : List Byte := []
  Type_ : String := ""
  Class : String := ""
deriving DecidableEq, Repr

structure Query where
  Header : dns.Header := {}
  Question : dns.Question := {}
  Type_ : String := ""
  OpCode : String := ""
  RCode : String := ""
  Authority : Bool := false
  ANCount : Int := 0
  QDCount : Int := 0
  TCP : Bool := false
deriving DecidableEq, Repr

/-! ## Buffer primitives -/

/-- The Go slice expression `b[lo:hi]` on a buffer whose capacity is its
length. -/
def slice (b : List Byte) (lo hi : Nat) : Except DecodeError (List Byte) :=
  if lo ≤ hi ∧ hi ≤ b.length then .ok ((b.drop lo).take (hi - lo))
  else .error .outOfBounds

/-- The Go index expression `b[i]`. -/
def index (b : List Byte) (i : Nat) : Except DecodeError Byte :=
  match b.get? i with
  | some x => .ok x
  | none => .error .outOfBounds

/-- The function `binary.BigEndian.Uint16`. -/
def Uint16 (b : List Byte) : Except DecodeError Nat := do
  let b1 ← index b 1
  let b0 ← index b 0
  pure (b1.val ||| (b0.val <<< 8))

/-! ## `decodeFlags` -/

/-- The function `decodeFlags`. Every assignment to a field of `dns` is kept, in
source order, as the new value of that field (a field that a branch does not
assign keeps the value it had in the `Query` passed in); the updated record is
built once at the end. -/
def decodeFlags (buffer : List Byte) (dns : Query) : Except DecodeError Query := do
  let flag1 ← index buffer 0
  let flag2 ← index buffer 1
  -- is QRFlag set
  let hQR : Int := if 0 ≠ (flag1.val &&& QRFlag) then 1 else dns.Header.QR
  let type : String :=
    if 0 ≠ (flag1.val &&& QRFlag) then mapGet QRTypes 1 else mapGet QRTypes 0
  -- get Opcode by masking and right shift by 3
  let optCode : Nat := (flag1.val &&& OpCodeMask) >>> 3
  let opCode : String :=
    match OpCodes.lookup optCode with
    | some optCodeStr => optCodeStr
    | none => dns.OpCode
  -- is AA flag set
  let hAA : Int := if 0 ≠ (flag1.val &&& AAFlag) then 1 else dns.Header.AA
  let authority : Bool := if 0 ≠ (flag1.val &&& AAFlag) then true else dns.Authority
  -- is TC flag set
  let hTC : Int := if 0 ≠ (flag1.val &&& TCFlag) then 1 else dns.Header.TC
  -- is RD flag set
  let hRD : Int := if 0 ≠ (flag1.val &&& RDFlag) then 1 else dns.Header.RD
  -- is RA flag set
  let hRA : Int := if 0 ≠ (flag2.val &&& RDFlag) then 1 else dns.Header.RA
  -- get RCode with mask, no need to shift as it is at least sig bits already
  let rCode : Nat := flag2.val &&& RCodeMask
  let rCodeName : String :=
    match RCodes.lookup rCode with
    | some rCodeStr => rCodeStr
    | none => dns.RCode
  pure
    { dns with
      Header :=
        { dns.Header with
          QR := hQR, OpCode := optCode, AA := hAA, TC := hTC, RD := hRD, RA := hRA,
          RCode := (rCode : Int) }
      Type_ := type
      OpCode := opCode
      RCode := rCodeName
      Authority := authority }

/-! ## `decodeQuestion` -/

/-- How one execution of the body of the name loop ends: back at the loop
condition with cursor `i`, or at `break` with `trunc` assigned. In both cases
`b` is the content of the string builder. -/
inductive LoopStep where
  | next (i : Nat) (b : List Byte)
  | done (trunc : Nat) (b : List Byte)
deriving DecidableEq, Repr

/-- The byte written by `b.WriteString(".")`. -/
def dot : Byte := 0x2E

/-- One execution of the body of `for i := 0; i < buffLen; { ... }`, entered with
cursor `i` and builder content `b`. -/
def loopBody (buffer : List Byte) (i : Nat) (b : List Byte) :
    Except DecodeError LoopStep := do
  let cur ← index buffer i
  let (i, b) ←
    if 0 = (cur.val &&& ANLabelMask) then do
      let strLen := cur.val
      let strBytes ← slice buffer (i + 1) (i + 1 + strLen)
      pure (i + strLen + 1, b ++ strBytes ++ [dot])
    else
      pure (i, b)
  -- null means end of hostname parsing
  let cur ← index buffer i
  if 0x00 = cur.val then
    pure (LoopStep.done (i + 1) b)
  else
    pure (LoopStep.next i b)

/-- The name loop of `decodeQuestion`, from cursor `i` and builder content `b`,
allowed to execute its body at most `fuel` times. The result is the final
`trunc` and builder content. -/
def scanName (buffer : List Byte) :
    Nat → Nat → List Byte → Option (Except DecodeError (Nat × List Byte))
  | fuel, i, b =>
    if i < buffer.length then
      match fuel with
      | 0 => none
      | fuel + 1 =>
        match loopBody buffer i b with
        | .error e => some (.error e)
        | .ok (.done trunc b) => some (.ok (trunc, b))
        | .ok (.next i b) => scanName buffer fuel i b
    else
      some (.ok (0, b))

/-- The statements of `decodeQuestion` after the name loop. -/
def finishQuestion (buffer : List Byte) (d : Query) (trunc : Nat) (b : List Byte) :
    Except DecodeError Query := do
  -- truncate buffCopy
  let _buffCopy ← slice buffer trunc buffer.length
  let qt ← (slice buffer 0 2 >>= Uint16)
  let type : String :=
    match QTypes.lookup qt with
    | some t => t
    | none => ""
  let qc ← (slice buffer 2 4 >>= Uint16)
  let cls : String :=
    match QTypes.lookup qc with
    | some c => c
    | none => ""
  -- add Question to passed in Query
  pure { d with Question := { QueryName := b, Type_ := type, Class := cls } }

def decodeQuestion (fuel : Nat) (buffer : List Byte) (d : Query) :
    Option (Except DecodeError Query) :=
  match scanName buffer fuel 0 [] with
  | none => none
  | some (.error e) => some (.error e)
  | some (.ok (trunc, b)) => some (finishQuestion buffer d trunc b)

/-! ## `DecodePayload` -/

/-- The statements of `DecodePayload` up to and including `buffer = buffer[8:]`:
the `Query` with its header decoded and the remaining working buffer. The reads
happen in source order; `decodeFlags` receives the `Query` as it is at the call
(`TCP`, `Header.Length` and `Header.ID` assigned, every other field zero), and
the four counts are assigned afterwards. -/
def decodeHeader (buffer : List Byte) (tcp : Bool) :
    Except DecodeError (Query × List Byte) := do
  -- tcp has length header
  let (length, buffer) ←
    if tcp then do
      let len ← (slice buffer 0 2 >>= Uint16)
      let buffer ← slice buffer 2 buffer.length
      pure (len, buffer)
    else
      pure (0, buffer)
  -- obtain ID - first 16 bits
  let id ← (slice buffer 0 2 >>= Uint16)
  let buffer ← slice buffer 2 buffer.length
  let flags ← slice buffer 0 2
  let buffer ← slice buffer 2 buffer.length
  -- pass flags buffer and DNS object to decodeFlags
  let d ← decodeFlags flags { TCP := tcp, Header := { Length := length, ID := id } }
  -- obtain counts, 4 16 bit fields
  let qd ← (slice buffer 0 2 >>= Uint16)
  let an ← (slice buffer 2 4 >>= Uint16)
  let ns ← (slice buffer 4 6 >>= Uint16)
  let ar ← (slice buffer 6 8 >>= Uint16)
  -- discard header
  let buffer ← slice buffer 8 buffer.length
  pure
    ({ d with
       Header := { d.Header with QDCount := qd, ANCount := an, NSCount := ns, ARCount := ar }
       QDCount := (qd : Int)
       ANCount := (an : Int) },
     buffer)

def DecodePayload (fuel : Nat) (buffer : List Byte) (tcp : Bool) :
    Option (Except DecodeError Query) :=
  match decodeHeader buffer tcp with
  | .error e => some (.error e)
  | .ok (d, buffer) =>
    if d.Type_ = "Query" then decodeQuestion fuel buffer d
    else some (.ok d)

/-! ## Slices with spare capacity

A Go `[]byte` value has a length and a capacity. An index expression `b[i]` is
bounded by the length, a slice expression `b[lo:hi]` by the capacity: it can
reach octets of the backing array that lie past the length. The definitions
above are the decoder on a buffer whose capacity is its length. The definitions
of this section are the decoder on any buffer; `binary.BigEndian.Uint16` and
`decodeFlags` only index their argument and are applied to its octets below the
length. -/

/-- A Go `[]byte` value: its octets below the length, and the octets of its
backing array from the length up to the capacity. -/
structure Buf where
  bytes : List Byte
  spare : List Byte := []
deriving DecidableEq, Repr

namespace Buf

/-- The octets of the backing array from the start of the slice up to its
capacity. -/
def backing (b : Buf) : List Byte := b.bytes ++ b.spare

/-- The Go expression `len(b)`. -/
def len (b : Buf) : Nat := b.bytes.length

/-- The Go expression `cap(b)`. -/
def cap (b : Buf) : Nat := b.bytes.length + b.spare.length

/-- The Go slice expression `b[lo:hi]`, whose high index is bounded by the
capacity; `b[lo:]` is `b[lo:len(b)]`. -/
def slice (b : Buf) (lo hi : Nat) : Except DecodeError Buf :=
  if lo ≤ hi ∧ hi ≤ b.cap then
    .ok { bytes := (b.backing.drop lo).take (hi - lo), spare := b.backing.drop hi }
  else .error .outOfBounds

/-- The function `binary.BigEndian.Uint16` on a slice. -/
def Uint16 (b : Buf) : Except DecodeError Nat :=
  dns.Uint16 b.bytes

/-- One execution of the body of the name loop of `decodeQuestion`. -/
def loopBody (buffer : Buf) (i : Nat) (b : List Byte) : Except DecodeError LoopStep := do
  let cur ← index buffer.bytes i
  let (i, b) ←
    if 0 = (cur.val &&& ANLabelMask) then do
      let strLen := cur.val
      let strBytes ← buffer.slice (i + 1) (i + 1 + strLen)
      pure (i + strLen + 1, b ++ strBytes.bytes ++ [dot])
    else
      pure (i, b)
  -- null means end of hostname parsing
  let cur ← index buffer.bytes i
  if 0x00 = cur.val then
    pure (LoopStep.done (i + 1) b)
  else
    pure (LoopStep.next i b)

/-- The name loop of `decodeQuestion`, allowed to execute its body at most
`fuel` times. -/
def scanName (buffer : Buf) :
    Nat → Nat → List Byte → Option (Except DecodeError (Nat × List Byte))
  | fuel, i, b =>
    if i < buffer.len then
      match fuel with
      | 0 => none
      | fuel + 1 =>
        match loopBody buffer i b with
        | .error e => some (.error e)
        | .ok (.done trunc b) => some (.ok (trunc, b))
        | .ok (.next i b) => scanName buffer fuel i b
    else
      some (.ok (0, b))

/-- The statements of `decodeQuestion` after the name loop. -/
def finishQuestion (buffer : Buf) (d : Query) (trunc : Nat) (b : List Byte) :
    Except DecodeError Query := do
  -- truncate buffCopy
  let _buffCopy ← buffer.slice trunc buffer.len
  let qt ← (buffer.slice 0 2 >>= Uint16)
  let type : String :=
    match QTypes.lookup qt with
    | some t => t
    | none => ""
  let qc ← (buffer.slice 2 4 >>= Uint16)
  let cls : String :=
    match QTypes.lookup qc with
    | some c => c
    | none => ""
  -- add Question to passed in Query
  pure { d with Question := { QueryName := b, Type_ := type, Class := cls } }

def decodeQuestion (fuel : Nat) (buffer : Buf) (d : Query) :
    Option (Except DecodeError Query) :=
  match scanName buffer fuel 0 [] with
  | none => none
  | some (.error e) => some (.error e)
  | some (.ok (trunc, b)) => some (finishQuestion buffer d trunc b)

/-- The statements of `DecodePayload` up to and including `buffer = buffer[8:]`. -/
def decodeHeader (buffer : Buf) (tcp : Bool) : Except DecodeError (Query × Buf) := do
  -- tcp has length header
  let (length, buffer) ←
    if tcp then do
      let len ← (buffer.slice 0 2 >>= Uint16)
      let buffer ← buffer.slice 2 buffer.len
      pure (len, buffer)
    else
      pure (0, buffer)
  -- obtain ID - first 16 bits
  let id ← (buffer.slice 0 2 >>= Uint16)
  let buffer ← buffer.slice 2 buffer.len
  let flags ← buffer.slice 0 2
  let buffer ← buffer.slice 2 buffer.len
  -- pass flags buffer and DNS object to decodeFlags
  let d ← decodeFlags flags.bytes { TCP := tcp, Header := { Length := length, ID := id } }
  -- obtain counts, 4 16 bit fields
  let qd ← (buffer.slice 0 2 >>= Uint16)
  let an ← (buffer.slice 2 4 >>= Uint16)
  let ns ← (buffer.slice 4 6 >>= Uint16)
  let ar ← (buffer.slice 6 8 >>= Uint16)
  -- discard header
  let buffer ← buffer.slice 8 buffer.len
  pure
    ({ d with
       Header := { d.Header with QDCount := qd, ANCount := an, NSCount := ns, ARCount := ar }
       QDCount := (qd : Int)
       ANCount := (an : Int) },
     buffer)

def DecodePayload (fuel : Nat) (buffer : Buf) (tcp : Bool) :
    Option (Except DecodeError Query) :=
  match decodeHeader buffer tcp with
  | .error e => some (.error e)
  | .ok (d, buffer) =>
    if d.Type_ = "Query" then decodeQuestion fuel buffer d
    else some (.ok d)

end Buf

/-- A query that ends with its header, held in a slice of length 12 and
capacity 16 whose backing array goes on with `00 01 00 01`. -/
def headerOnlyQuery : Buf :=
  { bytes := [0x12, 0x34, 0x00, 0x00, 0x00, 0x01, 0x00, 0x00, 0x00, 0x00, 0x00, 0x00]
    spare := [0x00, 0x01, 0x00, 0x01] }

/-! ## Notions used to state the properties -/

/-- The bytes of an ASCII string literal. -/
def ascii (s : String) : List Byte :=
  s.toList.map (fun c => Fin.ofNat c.toNat)

/-- The 16-bit big-endian value of the bytes at offsets `i` and `i + 1` of `b`
(absent bytes read as 0). -/
def be16 (b : List Byte) (i : Nat) : Nat :=
  (b.getD i 0).val * 256 + (b.getD (i + 1) 0).val

/-- The wire form of a name: every label preceded by its length octet, then the
zero octet. -/
def encodeName : List (List Byte) → List Byte
  | [] => [0]
  | l :: ls => Fin.ofNat l.length :: l ++ encodeName ls

/-- The dotted form of a name: every label followed by one dot. -/
def dotted : List (List Byte) → List Byte
  | [] => []
  | l :: ls => l ++ dot :: dotted ls

/-- The `Query` described by the twelve header octets at the start of `h`, for
a message received with transport flag `tcp` and length prefix `length`. -/
def headerOf (tcp : Bool) (length : Nat) (h : List Byte) : Query :=
  let flag1 := (h.getD 2 0).val
  let flag2 := (h.getD 3 0).val
  { Header :=
      { ID := be16 h 0
        QR := if flag1.testBit 7 then 1 else 0
        OpCode := (flag1 &&& OpCodeMask) >>> 3
        AA := if flag1.testBit 2 then 1 else 0
        TC := if flag1.testBit 1 then 1 else 0
        RD := if flag1.testBit 0 then 1 else 0
        RA := if flag2.testBit 0 then 1 else 0
        RCode := ((flag2 &&& RCodeMask : Nat) : Int)
        QDCount := be16 h 4
        ANCount := be16 h 6
        NSCount := be16 h 8
        ARCount := be16 h 10
        Length := length }
    Type_ := if flag1.testBit 7 then "Response" else "Query"
    OpCode := (OpCodes.lookup ((flag1 &&& OpCodeMask) >>> 3)).getD ""
    RCode := (RCodes.lookup (flag2 &&& RCodeMask)).getD ""
    Authority := flag1.testBit 2
    ANCount := (be16 h 6 : Int)
    QDCount := (be16 h 4 : Int)
    TCP := tcp }

/-- The query `q` relabelled with a transport flag and a length prefix. -/
def withTransport (tcp : Bool) (length : Nat) (q : Query) : Query :=
  { q with TCP := tcp, Header := { q.Header with Length := length } }

/-- The hand-built query for `example.com`, type A, class IN. -/
def exampleQuery : List Byte :=
  [0x12, 0x34, 0x00, 0x00, 0x00, 0x01, 0x00, 0x00, 0x00, 0x00, 0x00, 0x00,
   0x07, 0x65, 0x78, 0x61, 0x6D, 0x70, 0x6C, 0x65, 0x03, 0x63, 0x6F, 0x6D, 0x00,
   0x00, 0x01, 0x00, 0x01]

/-- The query `exampleQuery` with OpCode 6 in its first flag octet. -/
def opcode6Query : List Byte :=
  [0x12, 0x34, 0x30, 0x00, 0x00, 0x01, 0x00, 0x00, 0x00, 0x00, 0x00, 0x00,
   0x07, 0x65, 0x78, 0x61, 0x6D, 0x70, 0x6C, 0x65, 0x03, 0x63, 0x6F, 0x6D, 0x00,
   0x00, 0x01, 0x00, 0x01]

/-- A query whose question starts with the compression pointer `C0 0C`. -/
def pointerQuery : List Byte :=
  [0x12, 0x34, 0x00, 0x00, 0x00, 0x01, 0x00, 0x00, 0x00, 0x00, 0x00, 0x00,
   0xC0, 0x0C, 0x00, 0x01, 0x00, 0x01]

/-- The RCode names that `RCodes` gives to the codes 16 to 23. -/
def extendedRCodeNames : List String :=
  ["BADVERS", "BADSIG", "BADTIME", "BADMODE", "BADNAME", "BADALG", "BADTRUNC", "BADCOOKIE"]

/-- A query for the name `a`, type URI (256), class IN (1). -/
def uriQuery : List Byte :=
  [0x12, 0x34, 0x00, 0x00, 0x00, 0x01, 0x00, 0x00, 0x00, 0x00, 0x00, 0x00,
   0x01, 0x61, 0x00, 0x01, 0x00, 0x00, 0x01]

/-- A query for the root name, type CAA (257), class IN (1). -/
def rootCAAQuery : List Byte :=
  [0x12, 0x34, 0x00, 0x00, 0x00, 0x01, 0x00, 0x00, 0x00, 0x00, 0x00, 0x00,
   0x00, 0x01, 0x01, 0x00, 0x01]

/-! ## Data model of `stater.go`

A Go `map[K]uint64` is an association list with at most one entry per key, and a
counter is a natural number (no list of packets is long enough to wrap a 64-bit
counter). The channels of `asyncStater` are not modelled: the consumer loop of
`start` is run on the sequence of queries that it receives from `inChan`. The
order in which `String` ranges over `hostNameHist` is not fixed by Go; it is a
parameter. -/

/-- The Go two-result map read `v, ok := m[k]`. -/
def histGet {K : Type} [DecidableEq K] : List (K × Nat) → K → Option Nat
  | [], _ => none
  | (k', v) :: m, k => if k' = k then some v else histGet m k

/-- The Go map assignment `m[k] = v`. -/
def histSet {K : Type} [DecidableEq K] : List (K × Nat) → K → Nat → List (K × Nat)
  | [], k, v => [(k, v)]
  | (k', v') :: m, k, v => if k' = k then (k', v) :: m else (k', v') :: histSet m k v

structure Top where
  Count : Nat := 0
  Hostname : List Byte := []
deriving DecidableEq, Repr

structure asyncStater where
  payloadCount : Int := 0
  rcodeHist : List (String × Nat) := []
  topAnswersQuery : Option Query := none
  topAnswersCount : Int := 0
  hostNameHist : List (List Byte × Nat) := []
  hostNameTop : List Top := List.replicate 5 {}
deriving DecidableEq, Repr

/-- The state that `NewAsyncStater` builds. -/
def NewAsyncStater : asyncStater :=
  { rcodeHist := [], hostNameHist := [], hostNameTop := List.replicate 5 {} }

/-- One execution of the body of `for q := range a.inChan` in `start`. -/
def startBody (a : asyncStater) (q : Query) : asyncStater :=
  -- add to payloadCount
  let payloadCount := a.payloadCount + 1
  -- add to reponse code histagram
  let rcodeHist :=
    match histGet a.rcodeHist q.RCode with
    | none => histSet a.rcodeHist q.RCode 1
    | some v => histSet a.rcodeHist q.RCode (v + 1)
  -- add hostName to hostNameHist
  let hostNameHist :=
    match histGet a.hostNameHist q.Question.QueryName with
    | none =>
      if q.Question.QueryName ≠ [] then histSet a.hostNameHist q.Question.QueryName 1
      else a.hostNameHist
    | some v =>
      if q.Question.QueryName ≠ [] then histSet a.hostNameHist q.Question.QueryName (v + 1)
      else a.hostNameHist
  -- check for top answer
  let top : Int × Option Query :=
    if q.ANCount > a.topAnswersCount then (q.ANCount, some q)
    else (a.topAnswersCount, a.topAnswersQuery)
  { a with
    payloadCount := payloadCount
    rcodeHist := rcodeHist
    topAnswersQuery := top.2
    topAnswersCount := top.1
    hostNameHist := hostNameHist }

/-- The consumer loop of `start`, run on the queries `inChan` in the order in
which they are received. -/
def start (a : asyncStater) (inChan : List Query) : asyncStater :=
  inChan.foldl startBody a

/-- The inner loop `for i, t := range a.hostNameTop` of `String` for the
histogram entry `(k, v)`: the first slot with a smaller count is overwritten. -/
def rankEntry : List Top → List Byte → Nat → List Top
  | [], _, _ => []
  | t :: rest, k, v =>
    if v > t.Count then { Count := v, Hostname := k } :: rest
    else t :: rankEntry rest k v

/-- The top-5 computation of `String`, where `range a.hostNameHist` yields the
entries in the order `order`. -/
def computeTop5 (a : asyncStater) (order : List (List Byte × Nat)) : asyncStater :=
  { a with hostNameTop := order.foldl (fun top e => rankEntry top e.1 e.2) a.hostNameTop }

/-! ## Notions used to state the properties of the aggregator -/

/-- The first packet of `ps` whose `ANCount` is the maximum over `ps`. -/
def firstMax (ps : List Query) : Option Query :=
  ps.find? (fun q => ps.all (fun p => decide (p.ANCount ≤ q.ANCount)))

/-- A response with transaction ID `id` and `an` answers. -/
def answerPacket (id : Nat) (an : Nat) : Query :=
  { Header := { ID := id, QR := 1, ANCount := an }, Type_ := "Response", OpCode := "Query",
    RCode := "NoError", ANCount := (an : Int) }

/-- A decoded query for the host name `name`. -/
def namePacket (name : List Byte) : Query :=
  { Header := { QDCount := 1 }, Question := { QueryName := name }, Type_ := "Query",
    OpCode := "Query", RCode := "NoError", QDCount := 1 }

/-- What the consumer loop knows about the packets `seen` so far: the retained
count bounds every `ANCount`, and either nothing is retained and the count is
zero, or the retained packet is the first of `seen` that reaches the count,
which is positive. -/
def TopInv (a : asyncStater) (seen : List Query) : Prop :=
  (∀ p ∈ seen, p.ANCount ≤ a.topAnswersCount) ∧
  ((a.topAnswersCount = 0 ∧ a.topAnswersQuery = none) ∨
   (∃ l1 q l2, seen = l1 ++ q :: l2 ∧ a.topAnswersQuery = some q ∧
      q.ANCount = a.topAnswersCount ∧ 0 < q.ANCount ∧ ∀ p ∈ l1, p.ANCount < q.ANCount))

/-- What the top-5 computation knows after the entries `seen`: the slots are in
non-increasing order of count, every slot with a non-zero count is one of the
entries seen, two such slots have different host names, and the first slot
bounds every count seen. -/
def RankInv (top : List Top) (seen : List (List Byte × Nat)) : Prop :=
  top.Pairwise (fun s t => t.Count ≤ s.Count) ∧
  (∀ s ∈ top, s.Count ≠ 0 → (s.Hostname, s.Count) ∈ seen) ∧
  top.Pairwise (fun s t => s.Count ≠ 0 → t.Count ≠ 0 → s.Hostname ≠ t.Hostname) ∧
  (∀ e ∈ seen, e.2 ≤ (top.headD {}).Count)

/-! ## Facts about single octets -/

set_option maxRecDepth 100000 in
theorem and_QRFlag (f : Byte) : (0 ≠ (f.val &&& QRFlag)) ↔ f.val.testBit 7 = true := by
  revert f; decide

set_option maxRecDepth 100000 in
theorem and_AAFlag (f : Byte) : (0 ≠ (f.val &&& AAFlag)) ↔ f.val.testBit 2 = true := by
  revert f; decide

set_option maxRecDepth 100000 in
theorem and_TCFlag (f : Byte) : (0 ≠ (f.val &&& TCFlag)) ↔ f.val.testBit 1 = true := by
  revert f; decide

set_option maxRecDepth 100000 in
theorem and_RDFlag (f : Byte) : (0 ≠ (f.val &&& RDFlag)) ↔ f.val.testBit 0 = true := by
  revert f; decide

theorem Uint16_pair (a b : Byte) : Uint16 [a, b] = .ok (a.val * 256 + b.val) := by
  have h := Nat.mul_add_lt_is_or (i := 8) (b := b.val) (by omega) a.val
  have e : b.val ||| (a.val <<< 8) = a.val * 256 + b.val := by
    rw [Nat.lor_comm, Nat.shiftLeft_eq, Nat.mul_comm, ← h]
  simp only [Uint16, index, List.get?, bind, Except.bind, pure, Except.pure, e]

theorem match_getD (o : Option String) (d : String) :
    (match o with
      | some s => s
      | none => d) = o.getD d := by
  cases o <;> rfl

/-- The decoded flags, field by field, as a function of the two flag octets and
of the `Query` passed in. -/
theorem decodeFlags_pair (flag1 flag2 : Byte) (dns : Query) :
    decodeFlags [flag1, flag2] dns = .ok
      { dns with
        Header :=
          { dns.Header with
            QR := if flag1.val.testBit 7 then 1 else dns.Header.QR
            OpCode := (flag1.val &&& OpCodeMask) >>> 3
            AA := if flag1.val.testBit 2 then 1 else dns.Header.AA
            TC := if flag1.val.testBit 1 then 1 else dns.Header.TC
            RD := if flag1.val.testBit 0 then 1 else dns.Header.RD
            RA := if flag2.val.testBit 0 then 1 else dns.Header.RA
            RCode := ((flag2.val &&& RCodeMask : Nat) : Int) }
        Type_ := if flag1.val.testBit 7 then "Response" else "Query"
        OpCode := (OpCodes.lookup ((flag1.val &&& OpCodeMask) >>> 3)).getD dns.OpCode
        RCode := (RCodes.lookup (flag2.val &&& RCodeMask)).getD dns.RCode
        Authority := if flag1.val.testBit 2 then true else dns.Authority } := by
  have e1 : mapGet QRTypes 1 = "Response" := by decide
  have e0 : mapGet QRTypes 0 = "Query" := by decide
  unfold decodeFlags
  simp only [index, List.get?, bind, Except.bind, pure, Except.pure, and_QRFlag, and_AAFlag,
    and_TCFlag, and_RDFlag, match_getD, e0, e1]

set_option maxRecDepth 100000 in
theorem opcode_bits (f : Byte) :
    (f.val &&& OpCodeMask) >>> 3 = f.val / 8 % 16 ∧
    (OpCodes.lookup ((f.val &&& OpCodeMask) >>> 3)).getD "" =
      ["Query", "IQuery", "Status", "Unassigned", "Notify", "Update"].getD (f.val / 8 % 16) "" := by
  revert f; decide

set_option maxRecDepth 100000 in
theorem rcode_bits (f : Byte) :
    f.val &&& RCodeMask = f.val % 16 ∧
    (RCodes.lookup (f.val &&& RCodeMask)).getD "" =
      ["NoError", "FormErr", "ServFail", "NXDomain", "NotImp", "Refused", "YXDomain",
       "YXRRSet", "NXRRSet", "NotAuth", "NotZone"].getD (f.val % 16) "" ∧
    (RCodes.lookup (f.val &&& RCodeMask)).getD "" ∉ extendedRCodeNames := by
  revert f; decide

set_option maxRecDepth 100000 in
theorem top_bits (c : Byte) (h : c.val.testBit 7 = true ∨ c.val.testBit 6 = true) :
    c.val &&& ANLabelMask ≠ 0 := by
  revert c; decide

/-! ## The header part of `DecodePayload` -/

theorem decodeHeader_udp (b : List Byte) :
    decodeHeader b false =
      if 12 ≤ b.length then .ok (headerOf false 0 b, b.drop 12)
      else .error .outOfBounds := by
  rcases b with _ | ⟨a0, _ | ⟨a1, _ | ⟨a2, _ | ⟨a3, _ | ⟨a4, _ | ⟨a5, _ | ⟨a6, _ | ⟨a7,
    _ | ⟨a8, _ | ⟨a9, _ | ⟨a10, _ | ⟨a11, rest⟩⟩⟩⟩⟩⟩⟩⟩⟩⟩⟩⟩
  all_goals
    simp [decodeHeader, slice, Uint16_pair, decodeFlags_pair, headerOf, be16, bind, Except.bind,
      pure, Except.pure]

theorem decodeHeader_tcp (b : List Byte) :
    decodeHeader b true =
      if 14 ≤ b.length then .ok (headerOf true (be16 b 0) (b.drop 2), b.drop 14)
      else .error .outOfBounds := by
  rcases b with _ | ⟨p0, _ | ⟨p1, _ | ⟨a0, _ | ⟨a1, _ | ⟨a2, _ | ⟨a3, _ | ⟨a4, _ | ⟨a5,
    _ | ⟨a6, _ | ⟨a7, _ | ⟨a8, _ | ⟨a9, _ | ⟨a10, _ | ⟨a11, rest⟩⟩⟩⟩⟩⟩⟩⟩⟩⟩⟩⟩⟩⟩
  all_goals
    simp [decodeHeader, slice, Uint16_pair, decodeFlags_pair, headerOf, be16, bind, Except.bind,
      pure, Except.pure]

theorem headerOf_Type (tcp : Bool) (length : Nat) (h : List Byte) :
    ((headerOf tcp length h).Type_ = "Query") ↔ (h.getD 2 0).val.testBit 7 = false := by
  unfold headerOf
  dsimp only
  generalize (h.getD 2 0).val.testBit 7 = t
  cases t <;> simp

/-- The decoder as a function of the buffer length and of the QR bit. -/
theorem DecodePayload_udp (fuel : Nat) (b : List Byte) :
    DecodePayload fuel b false =
      if 12 ≤ b.length then
        if (b.getD 2 0).val.testBit 7 = false then
          decodeQuestion fuel (b.drop 12) (headerOf false 0 b)
        else some (.ok (headerOf false 0 b))
      else some (.error .outOfBounds) := by
  unfold DecodePayload
  rw [decodeHeader_udp]
  by_cases h : 12 ≤ b.length
  · simp only [h, if_true, headerOf_Type]
  · simp only [h, if_false]

theorem DecodePayload_tcp (fuel : Nat) (b : List Byte) :
    DecodePayload fuel b true =
      if 14 ≤ b.length then
        if (b.getD 4 0).val.testBit 7 = false then
          decodeQuestion fuel (b.drop 14) (headerOf true (be16 b 0) (b.drop 2))
        else some (.ok (headerOf true (be16 b 0) (b.drop 2)))
      else some (.error .outOfBounds) := by
  unfold DecodePayload
  rw [decodeHeader_tcp]
  by_cases h : 14 ≤ b.length
  · have e : (b.drop 2).getD 2 0 = b.getD 4 0 := by
      simp [List.getD_eq_getElem?_getD, List.getElem?_drop]
    simp only [h, if_true, headerOf_Type, e]
  · simp only [h, if_false]

/-! ## The question part -/

theorem finishQuestion_ok (buffer : List Byte) (d q : Query) (trunc : Nat) (b : List Byte)
    (h : finishQuestion buffer d trunc b = .ok q) :
    q = { d with Question := q.Question } ∧ q.Question.QueryName = b := by
  unfold finishQuestion at h
  simp only [bind, Except.bind, pure, Except.pure] at h
  split at h
  · cases h
  split at h
  · cases h
  split at h
  · cases h
  cases h
  exact ⟨rfl, rfl⟩

theorem decodeQuestion_ok (fuel : Nat) (buffer : List Byte) (d q : Query)
    (h : decodeQuestion fuel buffer d = some (.ok q)) :
    q = { d with Question := q.Question } := by
  unfold decodeQuestion at h
  split at h
  · cases h
  · cases h
  · exact (finishQuestion_ok _ _ _ _ _ (Option.some.inj h)).1

/-! ## The name loop -/

theorem scanName_succ (buffer : List Byte) (fuel i : Nat) (b : List Byte)
    (hi : i < buffer.length) :
    scanName buffer (fuel + 1) i b =
      match loopBody buffer i b with
      | .error e => some (.error e)
      | .ok (.done trunc b) => some (.ok (trunc, b))
      | .ok (.next i b) => scanName buffer fuel i b := by
  rw [scanName]
  simp only [hi, if_true]

theorem scanName_zero (buffer : List Byte) (i : Nat) (b : List Byte)
    (hi : i < buffer.length) : scanName buffer 0 i b = none := by
  rw [scanName]
  simp only [hi, if_true]

/-- A cursor on an octet with one of the two top bits set stays there. -/
theorem loopBody_stuck (buffer : List Byte) (i : Nat) (c : Byte) (b : List Byte)
    (hc : buffer.get? i = some c) (hm : c.val &&& ANLabelMask ≠ 0) :
    loopBody buffer i b = .ok (.next i b) := by
  have h0 : ¬ (0 = c.val) := by
    intro h
    apply hm
    rw [← h]
    exact Nat.zero_and _
  have h1 : ¬ (0 = (c.val &&& ANLabelMask)) := fun h => hm h.symm
  have hx : index buffer i = .ok c := by simp only [index, hc]
  simp only [loopBody, hx, h0, h1, bind, Except.bind, pure, Except.pure, if_false]

theorem scanName_stuck (buffer : List Byte) (i : Nat) (c : Byte)
    (hc : buffer.get? i = some c) (hm : c.val &&& ANLabelMask ≠ 0) :
    ∀ (fuel : Nat) (b : List Byte), scanName buffer fuel i b = none := by
  have hi : i < buffer.length := by
    rcases List.get?_eq_some.1 hc with ⟨h, _⟩
    exact h
  intro fuel
  induction fuel with
  | zero => intro b; exact scanName_zero buffer i b hi
  | succ n ih =>
    intro b
    rw [scanName_succ buffer n i b hi, loopBody_stuck buffer i c b hc hm]
    exact ih b

theorem index_append (pre : List Byte) (c : Byte) (rest : List Byte) :
    index (pre ++ c :: rest) pre.length = .ok c := by
  have h : (pre ++ c :: rest).get? pre.length = some c := by
    rw [List.get?_eq_getElem?, List.getElem?_append_right (Nat.le_refl _)]
    simp
  simp only [index, h]

theorem slice_append (pre l rest : List Byte) (c : Byte) :
    slice (pre ++ c :: (l ++ rest)) (pre.length + 1) (pre.length + 1 + l.length) = .ok l := by
  have h : pre.length + 1 + l.length ≤ (pre ++ c :: (l ++ rest)).length := by
    simp only [List.length_append, List.length_cons]; omega
  have e : pre ++ c :: (l ++ rest) = (pre ++ [c]) ++ (l ++ rest) := by simp
  have d : List.drop (pre.length + 1) (pre ++ c :: (l ++ rest)) = l ++ rest := by
    rw [e]
    have : pre.length + 1 = (pre ++ [c]).length := by simp
    rw [this, List.drop_left]
  simp only [slice, h, Nat.le_add_right, and_self, if_true, d, Nat.add_sub_cancel_left,
    List.take_left]

set_option maxRecDepth 100000 in
theorem label_mask (n : Nat) (h : n ≤ 63) : 0 = (n &&& ANLabelMask) := by
  have : ∀ k : Fin 64, 0 = (k.val &&& ANLabelMask) := by decide
  exact this ⟨n, by omega⟩

/-- One loop body on a label of at most 63 octets followed by the octet `c`. -/
theorem loopBody_label (pre l rest b : List Byte) (n c : Byte) (hn : n.val = l.length)
    (h63 : l.length ≤ 63) :
    loopBody (pre ++ n :: (l ++ c :: rest)) pre.length b =
      .ok (if 0 = c.val then LoopStep.done (pre.length + l.length + 1 + 1) (b ++ l ++ [dot])
           else LoopStep.next (pre.length + l.length + 1) (b ++ l ++ [dot])) := by
  have hm : 0 = (n.val &&& ANLabelMask) := label_mask n.val (by omega)
  have hx : index (pre ++ n :: (l ++ c :: rest)) (pre.length + l.length + 1) = .ok c := by
    have e : pre ++ n :: (l ++ c :: rest) = (pre ++ n :: l) ++ c :: rest := by simp
    have : pre.length + l.length + 1 = (pre ++ n :: l).length := by simp; omega
    rw [e, this, index_append]
  simp only [loopBody, index_append, bind, Except.bind, hm, if_true, hn, slice_append, pure,
    Except.pure, hx]
  split <;> rfl

/-- The statements after the loop succeed on a buffer of four octets or more. -/
theorem finishQuestion_eq (buffer : List Byte) (d : Query) (trunc : Nat) (b : List Byte)
    (h4 : 4 ≤ buffer.length) (ht : trunc ≤ buffer.length) :
    finishQuestion buffer d trunc b = .ok
      { d with
        Question :=
          { QueryName := b
            Type_ := (QTypes.lookup (be16 buffer 0)).getD ""
            Class := (QTypes.lookup (be16 buffer 2)).getD "" } } := by
  rcases buffer with _ | ⟨a0, _ | ⟨a1, _ | ⟨a2, _ | ⟨a3, rest⟩⟩⟩⟩
  · simp at h4
  · simp at h4
  · simp at h4
  · simp at h4
  · have e : slice (a0 :: a1 :: a2 :: a3 :: rest) trunc (a0 :: a1 :: a2 :: a3 :: rest).length =
        .ok (List.drop trunc (a0 :: a1 :: a2 :: a3 :: rest)) := by
      simp only [slice, ht, Nat.le_refl, and_self, if_true, ← List.length_drop, List.take_length]
    have e0 : slice (a0 :: a1 :: a2 :: a3 :: rest) 0 2 = .ok [a0, a1] := by simp [slice]
    have e2 : slice (a0 :: a1 :: a2 :: a3 :: rest) 2 4 = .ok [a2, a3] := by simp [slice]
    simp only [finishQuestion, e, e0, e2, bind, Except.bind, pure, Except.pure, Uint16_pair,
      match_getD]
    simp [be16]

theorem encodeName_cons_head (ls : List (List Byte)) (hv : ∀ l ∈ ls, 1 ≤ l.length ∧ l.length ≤ 63) :
    ∃ (c : Byte) (rest : List Byte), encodeName ls = c :: rest ∧ ((0 = c.val) ↔ ls = []) := by
  cases ls with
  | nil => exact ⟨0, [], rfl, by simp⟩
  | cons l ls =>
    refine ⟨Fin.ofNat l.length, l ++ encodeName ls, rfl, ?_⟩
    have := hv l (List.mem_cons_self _ _)
    have e : (Fin.ofNat l.length : Byte).val = l.length := by
      show l.length % 256 = l.length
      omega
    simp [e]; omega

/-- The name loop on a well-formed name: it returns after one body per label,
with the dotted name in the builder and `trunc` one past the zero octet. -/
theorem scanName_labels (ls : List (List Byte)) :
    (∀ l ∈ ls, 1 ≤ l.length ∧ l.length ≤ 63) → ls ≠ [] →
    ∀ (pre tail b : List Byte) (fuel : Nat), ls.length ≤ fuel →
      scanName (pre ++ encodeName ls ++ tail) fuel pre.length b =
        some (.ok (pre.length + (encodeName ls).length, b ++ dotted ls)) := by
  induction ls with
  | nil => intro _ h; exact absurd rfl h
  | cons l ls ih =>
    intro hv _ pre tail b fuel hf
    have hl := hv l (List.mem_cons_self _ _)
    have hv2 : ∀ x ∈ ls, 1 ≤ x.length ∧ x.length ≤ 63 :=
      fun x hx => hv x (List.mem_cons_of_mem _ hx)
    have hn : (Fin.ofNat l.length : Byte).val = l.length := by
      show l.length % 256 = l.length
      omega
    obtain ⟨c, rest, hc, hz⟩ := encodeName_cons_head ls hv2
    obtain ⟨f, rfl⟩ : ∃ f, fuel = f + 1 := ⟨fuel - 1, by simp at hf; omega⟩
    have hb : pre ++ encodeName (l :: ls) ++ tail =
        pre ++ Fin.ofNat l.length :: (l ++ c :: (rest ++ tail)) := by
      simp [encodeName, hc]
    have hlt : pre.length < (pre ++ encodeName (l :: ls) ++ tail).length := by
      rw [hb]; simp
    rw [scanName_succ _ _ _ _ hlt]
    rw [hb, loopBody_label pre l (rest ++ tail) b _ c hn hl.2]
    by_cases h0 : 0 = c.val
    · have hnil : ls = [] := hz.1 h0
      subst hnil
      simp only [h0, if_true]
      simp [encodeName, dotted]
      omega
    · have hne : ls ≠ [] := fun h => h0 (hz.2 h)
      simp only [h0, if_false]
      have hb2 : pre ++ Fin.ofNat l.length :: (l ++ c :: (rest ++ tail)) =
          (pre ++ Fin.ofNat l.length :: l) ++ encodeName ls ++ tail := by
        simp [hc]
      have hlen : pre.length + l.length + 1 = (pre ++ Fin.ofNat l.length :: l).length := by
        simp; omega
      rw [hb2, hlen, ih hv2 hne _ tail _ f (by simp at hf; omega)]
      simp [encodeName, dotted]
      omega

/-! ## Successful decodes -/

/-- A successful decode is the header `Query` of the buffer, plus a question. -/
theorem DecodePayload_ok (fuel : Nat) (b : List Byte) (tcp : Bool) (q : Query)
    (h : DecodePayload fuel b tcp = some (.ok q)) :
    (if tcp then 14 else 12) ≤ b.length ∧
    q = { headerOf tcp (if tcp then be16 b 0 else 0) (b.drop (if tcp then 2 else 0)) with
          Question := q.Question } := by
  cases tcp
  · rw [DecodePayload_udp] at h
    by_cases h12 : 12 ≤ b.length
    · simp only [h12, if_true] at h
      refine ⟨h12, ?_⟩
      by_cases hq : (b.getD 2 0).val.testBit 7 = false
      · simp only [hq, if_true] at h
        exact decodeQuestion_ok _ _ _ _ h
      · simp only [hq, if_false] at h
        cases h
        rfl
    · simp only [h12, if_false] at h
      cases h
  · rw [DecodePayload_tcp] at h
    by_cases h14 : 14 ≤ b.length
    · simp only [h14, if_true] at h
      refine ⟨h14, ?_⟩
      by_cases hq : (b.getD 4 0).val.testBit 7 = false
      · simp only [hq, if_true] at h
        exact decodeQuestion_ok _ _ _ _ h
      · simp only [hq, if_false] at h
        cases h
        rfl
    · simp only [h14, if_false] at h
      cases h

theorem decodeQuestion_withTransport (fuel : Nat) (buffer : List Byte) (d : Query)
    (tcp : Bool) (length : Nat) :
    decodeQuestion fuel buffer (withTransport tcp length d) =
      (decodeQuestion fuel buffer d).map (Except.map (withTransport tcp length)) := by
  unfold decodeQuestion
  split
  · rfl
  · rfl
  · simp only [Option.map_some', finishQuestion, bind, Except.bind, pure, Except.pure]
    congr 1
    split
    · rfl
    split
    · rfl
    split
    · rfl
    rfl

/-! ## The decoder on hand-built queries and on label sequences -/

/-- C1 (evaluation at the failing input). On the hand-built query for
`example.com` (type A, class IN) the decoder returns, for every fuel of two or
more, a `Query` with `Type = "Query"`, `OpCode = "Query"` and
`QueryName = "example.com."`, but with `Question.Type` and `Question.Class`
empty: both codes are read at offsets 0-3 of the question, on the octets
`07 65 78 61`, and both are looked up in `QTypes`. -/
theorem exampleQuery_type_and_class_empty (fuel : Nat) :
    DecodePayload (fuel + 2) exampleQuery false = some (.ok
      { Header := { ID := 0x1234, QDCount := 1 }
        Question := { QueryName := ascii "example.com.", Type_ := "", Class := "" }
        Type_ := "Query"
        OpCode := "Query"
        RCode := "NoError"
        QDCount := 1 }) := by
  rfl

/-- C2. For every non-empty list of labels of 1 to 63 octets each and every tail
of at least four octets, `decodeQuestion` on the labels in wire form followed by
the tail returns (with one unit of fuel per label) a `Query` whose `QueryName` is
every label followed by one dot, and nothing else. -/
theorem decodeQuestion_label_sequence (ls : List (List Byte)) (tail : List Byte) (d : Query)
    (fuel : Nat) (hne : ls ≠ []) (hv : ∀ l ∈ ls, 1 ≤ l.length ∧ l.length ≤ 63)
    (ht : 4 ≤ tail.length) (hf : ls.length ≤ fuel) :
    ∃ q, decodeQuestion fuel (encodeName ls ++ tail) d = some (.ok q) ∧
      q.Question.QueryName = dotted ls := by
  have h := scanName_labels ls hv hne [] tail [] fuel hf
  simp only [List.nil_append, List.length_nil, Nat.zero_add] at h
  have hfin := finishQuestion_eq (encodeName ls ++ tail) d (encodeName ls).length (dotted ls)
    (by simp only [List.length_append]; omega) (by simp only [List.length_append]; omega)
  have hd : decodeQuestion fuel (encodeName ls ++ tail) d =
      some (finishQuestion (encodeName ls ++ tail) d (encodeName ls).length (dotted ls)) := by
    unfold decodeQuestion
    rw [h]
  rw [hfin] at hd
  exact ⟨_, hd, rfl⟩

theorem decodeQuestion_label_sequence_witness :
    ∃ q, decodeQuestion 2
        (encodeName [[0x77, 0x77, 0x77], [0x63, 0x6F, 0x6D]] ++ [0x00, 0x01, 0x00, 0x01])
        {} = some (.ok q) ∧
      q.Question.QueryName = dotted [[0x77, 0x77, 0x77], [0x63, 0x6F, 0x6D]] :=
  decodeQuestion_label_sequence [[0x77, 0x77, 0x77], [0x63, 0x6F, 0x6D]]
    [0x00, 0x01, 0x00, 0x01] {} 2 (by decide) (by decide) (by decide) (by decide)

/-! ## TCP framing -/

/-- C3. For every message `m`, every two prefix octets and every fuel, decoding
the prefixed buffer as TCP has the outcome of decoding `m` as UDP (failure for
failure, no return for no return), and a returned `Query` is the UDP one with
`TCP` set to true and `Header.Length` set to the big-endian value of the prefix;
the UDP one has `TCP = false` and `Header.Length = 0`. -/
theorem DecodePayload_tcp_framing (fuel : Nat) (p0 p1 : Byte) (m : List Byte) :
    DecodePayload fuel (p0 :: p1 :: m) true =
        (DecodePayload fuel m false).map
          (Except.map (withTransport true (p0.val * 256 + p1.val))) ∧
    DecodePayload fuel m false =
        (DecodePayload fuel m false).map (Except.map (withTransport false 0)) := by
  have hT : ∀ (t : Bool) (n : Nat), headerOf t n m = withTransport t n (headerOf false 0 m) :=
    fun _ _ => rfl
  have e4 : (p0 :: p1 :: m).getD 4 0 = m.getD 2 0 := rfl
  have eb : be16 (p0 :: p1 :: m) 0 = p0.val * 256 + p1.val := rfl
  have hlen : (14 ≤ (p0 :: p1 :: m).length) ↔ 12 ≤ m.length := by
    simp only [List.length_cons]; omega
  constructor
  · rw [DecodePayload_tcp, DecodePayload_udp]
    by_cases h12 : 12 ≤ m.length
    · simp only [hlen, h12, if_true, e4, eb, List.drop_succ_cons, List.drop_zero]
      by_cases hq : (m.getD 2 0).val.testBit 7 = false
      · simp only [hq, if_true]
        rw [hT true, decodeQuestion_withTransport]
      · simp only [hq, if_false]
        rw [hT true]
        rfl
    · simp only [hlen, h12, if_false]
      rfl
  · rw [DecodePayload_udp]
    by_cases h12 : 12 ≤ m.length
    · simp only [h12, if_true]
      by_cases hq : (m.getD 2 0).val.testBit 7 = false
      · simp only [hq, if_true]
        rw [← decodeQuestion_withTransport]
        rfl
      · simp only [hq, if_false]
        rfl
    · simp only [h12, if_false]
      rfl

/-! ## Flags -/

/-- C4. For every flag pair, `decodeFlags` applied to a `Query` whose flag fields
still have their zero values returns a `Query` with `Type = "Response"` and
`Header.QR = 1` when bit 7 of `flag1` is set, `Type = "Query"` and
`Header.QR = 0` otherwise; `Authority` and `Header.AA = 1` exactly when bit 2 is
set, `Header.TC = 1` exactly when bit 1 is set, `Header.RD = 1` exactly when bit
0 is set. For the pair `81 80` (and `RCode` not yet assigned) this is
`Type = "Response"`, `Authority = false`, `RCode = "NoError"`. -/
theorem decodeFlags_first_octet (flag1 flag2 : Byte) (dns : Query)
    (hQR : dns.Header.QR = 0) (hAA : dns.Header.AA = 0) (hTC : dns.Header.TC = 0)
    (hRD : dns.Header.RD = 0) (hAuth : dns.Authority = false) :
    ∃ q, decodeFlags [flag1, flag2] dns = .ok q ∧
      q.Type_ = (if flag1.val.testBit 7 then "Response" else "Query") ∧
      q.Header.QR = (if flag1.val.testBit 7 then 1 else 0) ∧
      q.Authority = flag1.val.testBit 2 ∧
      q.Header.AA = (if flag1.val.testBit 2 then 1 else 0) ∧
      q.Header.TC = (if flag1.val.testBit 1 then 1 else 0) ∧
      q.Header.RD = (if flag1.val.testBit 0 then 1 else 0) ∧
      (flag1 = 0x81 → flag2 = 0x80 → dns.RCode = "" →
        q.Type_ = "Response" ∧ q.Authority = false ∧ q.RCode = "NoError") := by
  refine ⟨_, decodeFlags_pair flag1 flag2 dns, rfl, ?_, ?_, ?_, ?_, ?_, ?_⟩
  · simp only [hQR]
  · simp only [hAuth]
    cases (flag1.val.testBit 2) <;> rfl
  · simp only [hAA]
  · simp only [hTC]
  · simp only [hRD]
  · intro h1 h2 hR
    subst h1 h2
    simp only [hAuth, hR]
    decide

theorem decodeFlags_first_octet_witness :
    ∃ q, decodeFlags [0x81, 0x80] {} = .ok q ∧
      q.Type_ = "Response" ∧ q.Header.QR = 1 ∧ q.Authority = false ∧ q.Header.AA = 0 ∧
      q.Header.TC = 0 ∧ q.Header.RD = 1 ∧ q.RCode = "NoError" := by
  obtain ⟨q, h, h1, h2, h3, h4, h5, h6, h7⟩ :=
    decodeFlags_first_octet 0x81 0x80 {} rfl rfl rfl rfl rfl
  exact ⟨q, h, h1, h2, h3, h4, h5, h6, (h7 rfl rfl rfl).2.2⟩

/-- C5 (evaluation at the failing inputs). `decodeFlags` tests the second flag
octet against `RDFlag` (bit 0), not `RAFlag` (bit 7): on a fresh `Query` it
sets `Header.RA = 1` exactly when bit 0 of `flag2` is set. The pair `81 80`
gives `RA = 0` and the pair `81 01` gives `RA = 1`. -/
theorem decodeFlags_RA_tests_bit0 :
    (∀ flag1 flag2 : Byte, ∃ q, decodeFlags [flag1, flag2] {} = .ok q ∧
      q.Header.RA = (if flag2.val.testBit 0 then 1 else 0)) ∧
    (∃ q, decodeFlags [0x81, 0x80] {} = .ok q ∧ q.Header.RA = 0) ∧
    (∃ q, decodeFlags [0x81, 0x01] {} = .ok q ∧ q.Header.RA = 1) := by
  refine ⟨fun flag1 flag2 => ⟨_, decodeFlags_pair flag1 flag2 {}, rfl⟩,
    ⟨_, decodeFlags_pair 0x81 0x80 {}, by decide⟩, ⟨_, decodeFlags_pair 0x81 0x01 {}, by decide⟩⟩

/-- C6. For every flag pair, `Header.OpCode` is `(flag1 AND 0x78) >> 3`, that is
bits 6-3 of `flag1`, a value below 16; `Query.OpCode` (not assigned before) is
the `OpCodes` name of that value when it is at most 5 and empty when it is 6 or
more, and `decodeFlags` returns in every case. The query `opcode6Query`, whose
OpCode is 6, decodes with an empty `OpCode` label and `Header.OpCode = 6`. -/
theorem decodeFlags_opcode (flag1 flag2 : Byte) (dns : Query) (hOp : dns.OpCode = "") :
    (∃ q, decodeFlags [flag1, flag2] dns = .ok q ∧
      q.Header.OpCode = (flag1.val &&& 0x78) >>> 3 ∧
      q.Header.OpCode = flag1.val / 8 % 16 ∧
      q.Header.OpCode < 16 ∧
      q.OpCode = (OpCodes.lookup q.Header.OpCode).getD "" ∧
      q.OpCode =
        ["Query", "IQuery", "Status", "Unassigned", "Notify", "Update"].getD q.Header.OpCode "" ∧
      (6 ≤ q.Header.OpCode → q.OpCode = "")) ∧
    (∃ q, DecodePayload 2 opcode6Query false = some (.ok q) ∧
      q.OpCode = "" ∧ q.Header.OpCode = 6) := by
  obtain ⟨hb1, hb2⟩ := opcode_bits flag1
  have hlt : flag1.val / 8 % 16 < 16 := Nat.mod_lt _ (by decide)
  refine ⟨⟨_, decodeFlags_pair flag1 flag2 dns, rfl, hb1, ?_, ?_, ?_, ?_⟩, ⟨_, rfl, rfl, rfl⟩⟩
  · simp only [hb1]; exact hlt
  · simp only [hOp]
  · simp only [hOp]
    rw [hb2, hb1]
  · intro h6
    simp only [hOp]
    rw [hb2]
    rw [hb1] at h6
    exact List.getD_eq_default _ _ h6

theorem decodeFlags_opcode_witness :
    ∃ q, decodeFlags [0x30, 0x00] {} = .ok q ∧
      q.Header.OpCode = 6 ∧ q.Header.OpCode < 16 ∧ q.OpCode = "" := by
  obtain ⟨q, h, h1, _, h3, _, h5, _⟩ := (decodeFlags_opcode 0x30 0x00 {} rfl).1
  exact ⟨q, h, h1, h3, h5.trans (by rw [h1]; rfl)⟩

/-- C7. For every flag pair, `Header.RCode` is `flag2 AND 0x0F`, the low four
bits of `flag2`; `Query.RCode` (not assigned before) is the `RCodes` name of that
value, which is one of the eleven names of the codes 0 to 10 and empty for the
values 11 to 15. No successful decode, of any buffer over either transport,
carries one of the names that `RCodes` gives to the codes 16 to 23. -/
theorem decodeFlags_rcode (flag1 flag2 : Byte) (dns : Query) (hR : dns.RCode = "") :
    (∃ q, decodeFlags [flag1, flag2] dns = .ok q ∧
      q.Header.RCode = ((flag2.val &&& 0x0F : Nat) : Int) ∧
      q.Header.RCode = ((flag2.val % 16 : Nat) : Int) ∧
      q.RCode = (RCodes.lookup (flag2.val % 16)).getD "" ∧
      q.RCode =
        ["NoError", "FormErr", "ServFail", "NXDomain", "NotImp", "Refused", "YXDomain",
         "YXRRSet", "NXRRSet", "NotAuth", "NotZone"].getD (flag2.val % 16) "" ∧
      (11 ≤ flag2.val % 16 → q.RCode = "")) ∧
    (∀ (fuel : Nat) (buffer : List Byte) (tcp : Bool) (q : Query),
      DecodePayload fuel buffer tcp = some (.ok q) → q.RCode ∉ extendedRCodeNames) := by
  obtain ⟨hb1, hb2, _⟩ := rcode_bits flag2
  refine ⟨⟨_, decodeFlags_pair flag1 flag2 dns, rfl, ?_, ?_, ?_, ?_⟩, ?_⟩
  · show ((flag2.val &&& RCodeMask : Nat) : Int) = _
    rw [hb1]
  · simp only [hR]
    rw [hb1]
  · simp only [hR]
    rw [hb2]
  · intro h11
    simp only [hR]
    rw [hb2]
    exact List.getD_eq_default _ _ h11
  · intro fuel buffer tcp q h
    have hq := congrArg Query.RCode (DecodePayload_ok fuel buffer tcp q h).2
    rw [hq]
    exact (rcode_bits _).2.2

theorem decodeFlags_rcode_witness :
    ∃ q, decodeFlags [0x81, 0x83] {} = .ok q ∧ q.Header.RCode = 3 ∧ q.RCode = "NXDomain" := by
  obtain ⟨q, h, _, h2, _, h4, _⟩ := (decodeFlags_rcode 0x81 0x83 {} rfl).1
  exact ⟨q, h, h2, h4⟩

/-! ## Header layout and short buffers -/

/-- C8. For every UDP buffer `b` on which `DecodePayload` returns a `Query`, `b`
has twelve octets or more, `Header.ID`, `Header.QDCount`, `Header.ANCount`,
`Header.NSCount` and `Header.ARCount` are the big-endian 16-bit values at offsets
0-1, 4-5, 6-7, 8-9 and 10-11 of `b`, and `Query.QDCount` and `Query.ANCount` are
`Header.QDCount` and `Header.ANCount` as integers. -/
theorem DecodePayload_header_layout (fuel : Nat) (b : List Byte) (q : Query)
    (h : DecodePayload fuel b false = some (.ok q)) :
    12 ≤ b.length ∧
    q.Header.ID = be16 b 0 ∧
    q.Header.QDCount = be16 b 4 ∧
    q.Header.ANCount = be16 b 6 ∧
    q.Header.NSCount = be16 b 8 ∧
    q.Header.ARCount = be16 b 10 ∧
    q.QDCount = (q.Header.QDCount : Int) ∧
    q.ANCount = (q.Header.ANCount : Int) := by
  obtain ⟨hlen, hq⟩ := DecodePayload_ok fuel b false q h
  have hH := congrArg Query.Header hq
  have hQ := congrArg Query.QDCount hq
  have hA := congrArg Query.ANCount hq
  simp only [Bool.false_eq_true, if_false, List.drop_zero] at hH hQ hA
  refine ⟨hlen, ?_, ?_, ?_, ?_, ?_, ?_, ?_⟩
  · rw [hH]; rfl
  · rw [hH]; rfl
  · rw [hH]; rfl
  · rw [hH]; rfl
  · rw [hH]; rfl
  · rw [hQ, hH]; rfl
  · rw [hA, hH]; rfl

theorem DecodePayload_header_layout_witness :
    ∃ q, DecodePayload 2 exampleQuery false = some (.ok q) ∧
      12 ≤ exampleQuery.length ∧
      q.Header.ID = be16 exampleQuery 0 ∧
      q.Header.QDCount = be16 exampleQuery 4 ∧
      q.Header.ANCount = be16 exampleQuery 6 ∧
      q.Header.NSCount = be16 exampleQuery 8 ∧
      q.Header.ARCount = be16 exampleQuery 10 ∧
      q.QDCount = (q.Header.QDCount : Int) ∧
      q.ANCount = (q.Header.ANCount : Int) :=
  ⟨_, rfl, DecodePayload_header_layout 2 exampleQuery _ rfl⟩

/-- C9. For every fuel, a buffer of fewer than 12 octets decoded as UDP and a
buffer of fewer than 14 octets decoded as TCP end in the out-of-bounds failure:
no `Query` is returned. -/
theorem DecodePayload_short_buffer (fuel : Nat) (b : List Byte) (tcp : Bool)
    (h : b.length < (if tcp then 14 else 12)) :
    DecodePayload fuel b tcp = some (.error .outOfBounds) := by
  cases tcp
  · have h12 : ¬ (12 ≤ b.length) := by
      simp only [Bool.false_eq_true, if_false] at h; omega
    rw [DecodePayload_udp]
    simp only [h12, if_false]
  · have h14 : ¬ (14 ≤ b.length) := by
      simp only [if_true] at h; omega
    rw [DecodePayload_tcp]
    simp only [h14, if_false]

theorem DecodePayload_short_buffer_witness :
    DecodePayload 7 [0x12, 0x34, 0x00, 0x00, 0x00, 0x01, 0x00, 0x00, 0x00, 0x00, 0x00] false =
        some (.error .outOfBounds) ∧
    DecodePayload 7
        [0x00, 0x0B, 0x12, 0x34, 0x00, 0x00, 0x00, 0x01, 0x00, 0x00, 0x00, 0x00, 0x00] true =
        some (.error .outOfBounds) :=
  ⟨DecodePayload_short_buffer 7 _ false (by decide),
   DecodePayload_short_buffer 7 _ true (by decide)⟩

/-! ## Termination -/

/-- C10 (the decoder on the failing inputs). For every UDP query (QR bit clear)
whose question starts with an octet that has one of its two top bits set, the
decoder does not return, whatever the fuel: the loop body neither advances the
cursor nor breaks. -/
theorem DecodePayload_pointer_never_returns (b : List Byte) (c : Byte)
    (hq : (b.getD 2 0).val.testBit 7 = false) (hc : b.get? 12 = some c)
    (hm : c.val.testBit 7 = true ∨ c.val.testBit 6 = true) :
    ∀ fuel : Nat, DecodePayload fuel b false = none := by
  intro fuel
  have hlt : 12 < b.length := (List.get?_eq_some.1 hc).1
  have h12 : 12 ≤ b.length := Nat.le_of_lt hlt
  have hd : (b.drop 12).get? 0 = some c := by
    rw [List.get?_eq_getElem?] at hc ⊢
    rw [List.getElem?_drop]
    exact hc
  rw [DecodePayload_udp]
  simp only [h12, if_true, hq]
  unfold decodeQuestion
  rw [scanName_stuck (b.drop 12) 0 c hd (top_bits c hm) fuel []]

theorem DecodePayload_pointer_never_returns_witness :
    DecodePayload 1000000 pointerQuery false = none :=
  DecodePayload_pointer_never_returns pointerQuery 0xC0 (by decide) (by decide) (by decide)
    1000000

/-! ## Index expressions -/

theorem index_ok (b : List Byte) (i : Nat) (c : Byte) (h : index b i = .ok c) :
    i < b.length := by
  unfold index at h
  split at h
  · rename_i x hx
    exact (List.get?_eq_some.1 hx).1
  · cases h

/-! ## Responses -/

/-- C11. For every UDP buffer of twelve octets or more whose octet at offset 2
has bit 7 set, `DecodePayload` returns a `Query` for every fuel and whatever
follows the header, and its `Question` has empty `QueryName`, `Type` and
`Class`. -/
theorem DecodePayload_response_question_empty (fuel : Nat) (b : List Byte)
    (hlen : 12 ≤ b.length) (hqr : (b.getD 2 0).val.testBit 7 = true) :
    ∃ q, DecodePayload fuel b false = some (.ok q) ∧
      q.Type_ = "Response" ∧
      q.Question.QueryName = [] ∧ q.Question.Type_ = "" ∧ q.Question.Class = "" := by
  have hne : ¬ ((b.getD 2 0).val.testBit 7 = false) := by
    rw [hqr]
    decide
  refine ⟨headerOf false 0 b, ?_, ?_, rfl, rfl, rfl⟩
  · rw [DecodePayload_udp, if_pos hlen, if_neg hne]
  · show (if (b.getD 2 0).val.testBit 7 then "Response" else "Query") = "Response"
    rw [hqr]
    rfl

theorem DecodePayload_response_question_empty_witness :
    ∃ q, DecodePayload 0
        [0x12, 0x34, 0x81, 0x80, 0x00, 0x01, 0x00, 0x01, 0x00, 0x00, 0x00, 0x00, 0xC0, 0x0C]
        false = some (.ok q) ∧
      q.Type_ = "Response" ∧
      q.Question.QueryName = [] ∧ q.Question.Type_ = "" ∧ q.Question.Class = "" :=
  DecodePayload_response_question_empty 0 _ (by decide) (by decide)

/-! ## Type and class of the question -/

/-- C12 (evaluation at the failing input). On the query for the name `a`, type
URI, class IN, the decoder returns `Question.Class = "A"`: the class is the
`QTypes` name of the value 1 found at offsets 2-3 of the question, where
`QClasses` has `"Internet"` for it. -/
theorem uriQuery_class_from_QTypes (fuel : Nat) :
    DecodePayload (fuel + 1) uriQuery false = some (.ok
      { Header := { ID := 0x1234, QDCount := 1 }
        Question := { QueryName := ascii "a.", Type_ := "", Class := "A" }
        Type_ := "Query"
        OpCode := "Query"
        RCode := "NoError"
        QDCount := 1 }) ∧
    be16 (uriQuery.drop 12) 2 = 1 ∧
    QTypes.lookup 1 = some "A" ∧ QClasses.lookup 1 = some "Internet" := by
  refine ⟨rfl, rfl, rfl, rfl⟩

/-! ## The root name -/

/-- C17 (evaluation at the failing input). With the cursor on the zero octet at
offset 0 of the question `00 01 01 00 01` (root name, type CAA, class IN), the
loop body does not stop: it takes the label branch, writes a dot and moves to
offset 1. The octet at offset 1 is then read as a label length and the octet at
offset 2 is copied into `QueryName`; the loop ends with `trunc = 4`. -/
theorem rootCAAQuery_scans_past_zero (fuel : Nat) :
    loopBody (rootCAAQuery.drop 12) 0 [] = .ok (LoopStep.next 1 [dot]) ∧
    scanName (rootCAAQuery.drop 12) (fuel + 2) 0 [] = some (.ok (4, [dot, 0x01, dot])) ∧
    DecodePayload (fuel + 2) rootCAAQuery false = some (.ok
      { Header := { ID := 0x1234, QDCount := 1 }
        Question := { QueryName := [dot, 0x01, dot], Type_ := "A", Class := "URI" }
        Type_ := "Query"
        OpCode := "Query"
        RCode := "NoError"
        QDCount := 1 }) := by
  refine ⟨rfl, rfl, rfl⟩

/-! ## Histograms -/

theorem histGet_histSet_self {K : Type} [DecidableEq K] (m : List (K × Nat)) (k : K) (v : Nat) :
    histGet (histSet m k v) k = some v := by
  induction m with
  | nil => simp [histSet, histGet]
  | cons e m ih =>
    obtain ⟨k1, v1⟩ := e
    by_cases h : k1 = k
    · simp [histSet, histGet, h]
    · simp [histSet, histGet, h, ih]

theorem histGet_histSet_other {K : Type} [DecidableEq K] (m : List (K × Nat)) (k k2 : K)
    (v : Nat) (hk : k ≠ k2) : histGet (histSet m k v) k2 = histGet m k2 := by
  induction m with
  | nil => simp [histSet, histGet, hk]
  | cons e m ih =>
    obtain ⟨k1, v1⟩ := e
    by_cases h : k1 = k
    · subst h
      simp [histSet, histGet, hk]
    · by_cases h2 : k1 = k2
      · subst h2
        simp [histSet, histGet, h]
      · simp [histSet, histGet, h, h2, ih]

theorem histSet_sum_absent {K : Type} [DecidableEq K] (m : List (K × Nat)) (k : K) (v : Nat)
    (h : histGet m k = none) :
    ((histSet m k v).map Prod.snd).sum = (m.map Prod.snd).sum + v := by
  induction m with
  | nil => simp [histSet]
  | cons e m ih =>
    obtain ⟨k1, v1⟩ := e
    by_cases hk : k1 = k
    · simp [histGet, hk] at h
    · simp only [histGet, hk, if_false] at h
      simp only [histSet, hk, if_false, List.map_cons, List.sum_cons, ih h]
      omega

theorem histSet_sum_present {K : Type} [DecidableEq K] (m : List (K × Nat)) (k : K)
    (v v0 : Nat) (h : histGet m k = some v0) :
    ((histSet m k v).map Prod.snd).sum + v0 = (m.map Prod.snd).sum + v := by
  induction m with
  | nil => simp [histGet] at h
  | cons e m ih =>
    obtain ⟨k1, v1⟩ := e
    by_cases hk : k1 = k
    · simp only [histGet, hk, if_true, Option.some.injEq] at h
      subst h
      simp only [histSet, hk, if_true, List.map_cons, List.sum_cons]
      omega
    · simp only [histGet, hk, if_false] at h
      have := ih h
      simp only [histSet, hk, if_false, List.map_cons, List.sum_cons]
      omega

/-- What one loop body does to the response-code histogram. -/
theorem startBody_rcodeHist (a : asyncStater) (q : Query) (k : String) :
    (histGet (startBody a q).rcodeHist k).getD 0 =
      (histGet a.rcodeHist k).getD 0 + (if q.RCode = k then 1 else 0) := by
  have e : (startBody a q).rcodeHist =
      histSet a.rcodeHist q.RCode ((histGet a.rcodeHist q.RCode).getD 0 + 1) := by
    unfold startBody
    cases h : histGet a.rcodeHist q.RCode <;> simp [h]
  rw [e]
  by_cases hk : q.RCode = k
  · subst hk
    simp [histGet_histSet_self]
  · simp [histGet_histSet_other _ _ _ _ hk, hk]

theorem startBody_rcodeHist_sum (a : asyncStater) (q : Query) :
    ((startBody a q).rcodeHist.map Prod.snd).sum = (a.rcodeHist.map Prod.snd).sum + 1 := by
  unfold startBody
  cases h : histGet a.rcodeHist q.RCode with
  | none => simpa [h] using histSet_sum_absent a.rcodeHist q.RCode 1 h
  | some v =>
    have := histSet_sum_present a.rcodeHist q.RCode (v + 1) v h
    simp only [h]
    omega

/-- What one loop body does to the host-name histogram. -/
theorem startBody_hostNameHist (a : asyncStater) (q : Query) :
    (startBody a q).hostNameHist =
      if q.Question.QueryName ≠ [] then
        histSet a.hostNameHist q.Question.QueryName
          ((histGet a.hostNameHist q.Question.QueryName).getD 0 + 1)
      else a.hostNameHist := by
  unfold startBody
  cases h : histGet a.hostNameHist q.Question.QueryName <;>
    by_cases hn : q.Question.QueryName = [] <;> simp [h, hn]

theorem start_cons (a : asyncStater) (q : Query) (ps : List Query) :
    start a (q :: ps) = start (startBody a q) ps := rfl

theorem startBody_hostNameHist_get (a : asyncStater) (q : Query) (h : List Byte)
    (hne : h ≠ []) :
    (histGet (startBody a q).hostNameHist h).getD 0 =
      (histGet a.hostNameHist h).getD 0 + (if q.Question.QueryName = h then 1 else 0) := by
  rw [startBody_hostNameHist]
  by_cases hq : q.Question.QueryName = h
  · subst hq
    simp [hne, histGet_histSet_self]
  · by_cases hn : q.Question.QueryName = []
    · simp [hn, hq, hne, hne.symm]
    · simp [hn, hq, histGet_histSet_other _ _ _ _ hq]

theorem startBody_hostNameHist_empty (a : asyncStater) (q : Query)
    (h : histGet a.hostNameHist [] = none) : histGet (startBody a q).hostNameHist [] = none := by
  rw [startBody_hostNameHist]
  by_cases hn : q.Question.QueryName = []
  · simp [hn, h]
  · simp [hn, histGet_histSet_other _ _ _ _ hn, h]

theorem start_totals_from (ps : List Query) :
    ∀ a : asyncStater,
      (start a ps).payloadCount = a.payloadCount + (ps.length : Int) ∧
      ((start a ps).rcodeHist.map Prod.snd).sum = (a.rcodeHist.map Prod.snd).sum + ps.length := by
  induction ps with
  | nil => intro a; simp [start]
  | cons q ps ih =>
    intro a
    obtain ⟨h1, h2⟩ := ih (startBody a q)
    rw [start_cons, h1, h2, startBody_rcodeHist_sum]
    have hp : (startBody a q).payloadCount = a.payloadCount + 1 := rfl
    rw [hp]
    simp only [List.length_cons, Nat.cast_add, Nat.cast_one]
    constructor <;> omega

theorem start_histograms_from (ps : List Query) :
    ∀ a : asyncStater,
      (∀ k : String, (histGet (start a ps).rcodeHist k).getD 0 =
        (histGet a.rcodeHist k).getD 0 + ps.countP (fun q => decide (q.RCode = k))) ∧
      (∀ h : List Byte, h ≠ [] → (histGet (start a ps).hostNameHist h).getD 0 =
        (histGet a.hostNameHist h).getD 0 +
          ps.countP (fun q => decide (q.Question.QueryName = h))) ∧
      (histGet a.hostNameHist [] = none → histGet (start a ps).hostNameHist [] = none) := by
  induction ps with
  | nil => intro a; simp [start]
  | cons q ps ih =>
    intro a
    obtain ⟨h1, h2, h3⟩ := ih (startBody a q)
    refine ⟨?_, ?_, ?_⟩
    · intro k
      rw [start_cons, h1, startBody_rcodeHist, List.countP_cons]
      by_cases hk : q.RCode = k
      · simp [hk]; omega
      · simp [hk]
    · intro h hne
      rw [start_cons, h2 h hne, startBody_hostNameHist_get _ _ _ hne, List.countP_cons]
      by_cases hk : q.Question.QueryName = h
      · simp [hk]; omega
      · simp [hk]
    · intro h0
      rw [start_cons]
      exact h3 (startBody_hostNameHist_empty a q h0)

/-! ## Totals and histograms of the consumer loop -/

/-- C13. For every list `ps` of N packets and every order `ps2` of the same
packets, the consumer loop started from a new aggregator ends with
`payloadCount = N` and with values of `rcodeHist` that sum to N. -/
theorem start_totals (ps ps2 : List Query) (h : ps2.Perm ps) :
    (start NewAsyncStater ps2).payloadCount = (ps.length : Int) ∧
    ((start NewAsyncStater ps2).rcodeHist.map Prod.snd).sum = ps.length := by
  obtain ⟨h1, h2⟩ := start_totals_from ps2 NewAsyncStater
  rw [h1, h2, h.length_eq]
  constructor
  · show (0 : Int) + _ = _
    omega
  · show 0 + _ = _
    omega

theorem start_totals_witness :
    (start NewAsyncStater [answerPacket 2 5, namePacket [0x61, 0x2E]]).payloadCount = 2 ∧
    ((start NewAsyncStater [answerPacket 2 5, namePacket [0x61, 0x2E]]).rcodeHist.map
      Prod.snd).sum = 2 :=
  start_totals [namePacket [0x61, 0x2E], answerPacket 2 5]
    [answerPacket 2 5, namePacket [0x61, 0x2E]] (List.Perm.swap _ _ _)

/-- C19. For every list of packets run through the consumer loop of a new
aggregator: for every string `k` (the empty one included), `rcodeHist[k]`, read
as 0 when absent, is the number of packets whose `RCode` label is `k`; for every
non-empty name `h`, `hostNameHist[h]` is the number of packets whose `QueryName`
is `h`; and the empty name is not a key of `hostNameHist`. -/
theorem start_histograms (ps : List Query) :
    (∀ k : String, (histGet (start NewAsyncStater ps).rcodeHist k).getD 0 =
      ps.countP (fun q => decide (q.RCode = k))) ∧
    (∀ h : List Byte, h ≠ [] → (histGet (start NewAsyncStater ps).hostNameHist h).getD 0 =
      ps.countP (fun q => decide (q.Question.QueryName = h))) ∧
    histGet (start NewAsyncStater ps).hostNameHist [] = none := by
  obtain ⟨h1, h2, h3⟩ := start_histograms_from ps NewAsyncStater
  refine ⟨?_, ?_, h3 rfl⟩
  · intro k
    rw [h1 k]
    show 0 + _ = _
    omega
  · intro h hne
    rw [h2 h hne]
    show 0 + _ = _
    omega

theorem start_histograms_witness :
    (histGet (start NewAsyncStater
        [namePacket [0x61, 0x2E], namePacket [0x62, 0x2E], namePacket [0x62, 0x2E],
         namePacket []]).hostNameHist [0x62, 0x2E]).getD 0 =
      [namePacket [0x61, 0x2E], namePacket [0x62, 0x2E], namePacket [0x62, 0x2E],
       namePacket []].countP (fun q => decide (q.Question.QueryName = [0x62, 0x2E])) :=
  (start_histograms _).2.1 [0x62, 0x2E] (by decide)

/-! ## The packet with most answers -/

theorem TopInv_startBody (a : asyncStater) (seen : List Query) (q : Query)
    (h : TopInv a seen) : TopInv (startBody a q) (seen ++ [q]) := by
  obtain ⟨hle, hcase⟩ := h
  have h0 : 0 ≤ a.topAnswersCount := by
    rcases hcase with ⟨hz, _⟩ | ⟨_, q0, _, _, _, he, hp, _⟩
    · omega
    · omega
  by_cases hgt : q.ANCount > a.topAnswersCount
  · have hc : (startBody a q).topAnswersCount = q.ANCount := by
      simp only [startBody, hgt, if_true]
    have hq : (startBody a q).topAnswersQuery = some q := by
      simp only [startBody, hgt, if_true]
    refine ⟨?_, Or.inr ⟨seen, q, [], rfl, hq, hc.symm, by omega, ?_⟩⟩
    · intro p hp
      rw [hc]
      rcases List.mem_append.1 hp with hp | hp
      · have := hle p hp
        omega
      · rw [List.mem_singleton.1 hp]
    · intro p hp
      have := hle p hp
      omega
  · have hc : (startBody a q).topAnswersCount = a.topAnswersCount := by
      simp only [startBody, hgt, if_false]
    have hq : (startBody a q).topAnswersQuery = a.topAnswersQuery := by
      simp only [startBody, hgt, if_false]
    refine ⟨?_, ?_⟩
    · intro p hp
      rw [hc]
      rcases List.mem_append.1 hp with hp | hp
      · exact hle p hp
      · rw [List.mem_singleton.1 hp]
        omega
    · rcases hcase with ⟨hz, hn⟩ | ⟨l1, q0, l2, hs, hr, he, hp, hl⟩
      · exact Or.inl ⟨by rw [hc]; exact hz, by rw [hq]; exact hn⟩
      · refine Or.inr ⟨l1, q0, l2 ++ [q], ?_, by rw [hq]; exact hr, by rw [hc]; exact he, hp, hl⟩
        rw [hs]
        simp

theorem TopInv_start (ps : List Query) :
    ∀ (a : asyncStater) (seen : List Query), TopInv a seen → TopInv (start a ps) (seen ++ ps) := by
  induction ps with
  | nil =>
    intro a seen h
    simpa [start] using h
  | cons q ps ih =>
    intro a seen h
    have := ih (startBody a q) (seen ++ [q]) (TopInv_startBody a seen q h)
    rw [start_cons]
    simpa using this

/-- C14 (the claim as stated fails). It is not true that for every non-empty
list of packets the retained packet is the first one whose `ANCount` is the
maximum of the list: after a single packet with `ANCount = 0` nothing is
retained. -/
theorem topAnswers_not_always_firstMax :
    ¬ (∀ ps : List Query, ps ≠ [] →
        (start NewAsyncStater ps).topAnswersQuery = firstMax ps) := by
  intro h
  exact absurd (h [answerPacket 1 0] (by decide)) (by decide)

/-- C14 (amended). For every list of packets run in order through the consumer
loop of a new aggregator: when some packet has a positive `ANCount`, the
retained packet is the first packet of the list whose `ANCount` is the maximum
of the list; when no packet has a positive `ANCount`, no packet is retained. -/
theorem start_topAnswers (ps : List Query) :
    ((∃ p ∈ ps, 0 < p.ANCount) → (start NewAsyncStater ps).topAnswersQuery = firstMax ps) ∧
    ((∀ p ∈ ps, p.ANCount ≤ 0) → (start NewAsyncStater ps).topAnswersQuery = none) := by
  have hinit : TopInv NewAsyncStater [] := ⟨by simp, Or.inl ⟨rfl, rfl⟩⟩
  have hinv := TopInv_start ps NewAsyncStater [] hinit
  rw [List.nil_append] at hinv
  obtain ⟨hle, hcase⟩ := hinv
  constructor
  · rintro ⟨p, hp, hpos⟩
    rcases hcase with ⟨hz, _⟩ | ⟨l1, q, l2, hs, hr, he, _, hl⟩
    · have := hle p hp
      omega
    · rw [hr]
      symm
      unfold firstMax
      rw [List.find?_eq_some]
      refine ⟨?_, l1, l2, hs, ?_⟩
      · rw [List.all_eq_true]
        intro x hx
        have := hle x hx
        simp only [decide_eq_true_eq]
        omega
      · intro x hx
        have hq : q ∈ ps := by rw [hs]; simp
        have hlt := hl x hx
        simp only [Bool.not_eq_true', List.all_eq_false]
        exact ⟨q, hq, by simp only [decide_eq_true_eq]; omega⟩
  · intro hall
    rcases hcase with ⟨_, hn⟩ | ⟨l1, q, l2, hs, _, _, hp, _⟩
    · exact hn
    · have hq : q ∈ ps := by rw [hs]; simp
      have := hall q hq
      omega

theorem start_topAnswers_witness :
    (start NewAsyncStater
        [answerPacket 1 1, answerPacket 2 5, answerPacket 3 5, answerPacket 4 3]).topAnswersQuery =
      some (answerPacket 2 5) :=
  ((start_topAnswers
      [answerPacket 1 1, answerPacket 2 5, answerPacket 3 5, answerPacket 4 3]).1
    ⟨answerPacket 2 5, by decide, by decide⟩).trans (by decide)

/-! ## The top-5 computation -/

/-- C15 (evaluation at the failing input). After the queries `a.`, `b.`, `b.`
the histogram is `a. -> 1, b. -> 2`. When `range` yields `a.` before `b.`, the
entry of `a.` is written to slot 0 and then overwritten by the entry of `b.`:
the slots hold `b.` with count 2 and four placeholders, and their counts are not
the two largest counts 2 and 1 followed by zeros. In the other order both
entries are kept. -/
theorem computeTop5_overwrites_entry :
    (start NewAsyncStater
      [namePacket [0x61, 0x2E], namePacket [0x62, 0x2E], namePacket [0x62, 0x2E]]).hostNameHist =
      [([0x61, 0x2E], 1), ([0x62, 0x2E], 2)] ∧
    (computeTop5 NewAsyncStater [([0x61, 0x2E], 1), ([0x62, 0x2E], 2)]).hostNameTop =
      [{ Count := 2, Hostname := [0x62, 0x2E] }, {}, {}, {}, {}] ∧
    ¬ ((computeTop5 NewAsyncStater [([0x61, 0x2E], 1), ([0x62, 0x2E], 2)]).hostNameTop.map
        Top.Count).Perm [2, 1, 0, 0, 0] ∧
    (computeTop5 NewAsyncStater [([0x62, 0x2E], 2), ([0x61, 0x2E], 1)]).hostNameTop =
      [{ Count := 2, Hostname := [0x62, 0x2E] }, { Count := 1, Hostname := [0x61, 0x2E] },
       {}, {}, {}] := by
  refine ⟨by decide, by decide, by decide, by decide⟩

theorem rankEntry_length (top : List Top) (k : List Byte) (v : Nat) :
    (rankEntry top k v).length = top.length := by
  induction top with
  | nil => rfl
  | cons t rest ih =>
    by_cases h : v > t.Count
    · simp [rankEntry, h]
    · simp [rankEntry, h, ih]

theorem rankEntry_mem (top : List Top) (k : List Byte) (v : Nat) (x : Top)
    (hx : x ∈ rankEntry top k v) : x ∈ top ∨ x = { Count := v, Hostname := k } := by
  induction top with
  | nil => simp [rankEntry] at hx
  | cons t rest ih =>
    by_cases h : v > t.Count
    · simp only [rankEntry, h, if_true, List.mem_cons] at hx
      rcases hx with hx | hx
      · exact Or.inr hx
      · exact Or.inl (List.mem_cons_of_mem _ hx)
    · simp only [rankEntry, h, if_false, List.mem_cons] at hx
      rcases hx with hx | hx
      · exact Or.inl (by rw [hx]; exact List.mem_cons_self _ _)
      · rcases ih hx with h1 | h1
        · exact Or.inl (List.mem_cons_of_mem _ h1)
        · exact Or.inr h1

theorem rankEntry_sorted (top : List Top) (k : List Byte) (v : Nat)
    (h : top.Pairwise (fun s t => t.Count ≤ s.Count)) :
    (rankEntry top k v).Pairwise (fun s t => t.Count ≤ s.Count) := by
  induction top with
  | nil => exact List.Pairwise.nil
  | cons t rest ih =>
    obtain ⟨h1, h2⟩ := List.pairwise_cons.1 h
    by_cases hv : v > t.Count
    · simp only [rankEntry, hv, if_true]
      refine List.pairwise_cons.2 ⟨?_, h2⟩
      intro x hx
      have := h1 x hx
      show x.Count ≤ v
      omega
    · simp only [rankEntry, hv, if_false]
      refine List.pairwise_cons.2 ⟨?_, ih h2⟩
      intro x hx
      rcases rankEntry_mem rest k v x hx with hx | hx
      · exact h1 x hx
      · rw [hx]
        show v ≤ t.Count
        omega

theorem rankEntry_distinct (top : List Top) (k : List Byte) (v : Nat)
    (h : top.Pairwise (fun s t => s.Count ≠ 0 → t.Count ≠ 0 → s.Hostname ≠ t.Hostname))
    (hk : ∀ s ∈ top, s.Count ≠ 0 → s.Hostname ≠ k) :
    (rankEntry top k v).Pairwise
      (fun s t => s.Count ≠ 0 → t.Count ≠ 0 → s.Hostname ≠ t.Hostname) := by
  induction top with
  | nil => exact List.Pairwise.nil
  | cons t rest ih =>
    obtain ⟨h1, h2⟩ := List.pairwise_cons.1 h
    have hk2 : ∀ s ∈ rest, s.Count ≠ 0 → s.Hostname ≠ k :=
      fun s hs => hk s (List.mem_cons_of_mem _ hs)
    by_cases hv : v > t.Count
    · simp only [rankEntry, hv, if_true]
      refine List.pairwise_cons.2 ⟨?_, h2⟩
      intro x hx _ hx0
      exact (hk2 x hx hx0).symm
    · simp only [rankEntry, hv, if_false]
      refine List.pairwise_cons.2 ⟨?_, ih h2 hk2⟩
      intro x hx ht0 hx0
      rcases rankEntry_mem rest k v x hx with hx | hx
      · exact h1 x hx ht0 hx0
      · rw [hx]
        exact hk t (List.mem_cons_self _ _) ht0

theorem rankEntry_head (top : List Top) (k : List Byte) (v : Nat) (hne : top ≠ []) :
    ((rankEntry top k v).headD {}).Count = max (top.headD {}).Count v := by
  cases top with
  | nil => exact absurd rfl hne
  | cons t rest =>
    by_cases hv : v > t.Count
    · simp only [rankEntry, hv, if_true, List.headD_cons]
      omega
    · simp only [rankEntry, hv, if_false, List.headD_cons]
      omega

theorem RankInv_rankEntry (top : List Top) (seen : List (List Byte × Nat))
    (e : List Byte × Nat) (h : RankInv top seen) (hne : top ≠ [])
    (hk : e.1 ∉ seen.map Prod.fst) : RankInv (rankEntry top e.1 e.2) (seen ++ [e]) := by
  obtain ⟨h1, h2, h3, h4⟩ := h
  refine ⟨rankEntry_sorted top e.1 e.2 h1, ?_, ?_, ?_⟩
  · intro s hs hs0
    rcases rankEntry_mem top e.1 e.2 s hs with hs | hs
    · exact List.mem_append_left _ (h2 s hs hs0)
    · rw [hs]
      exact List.mem_append_right _ (List.mem_singleton.2 rfl)
  · refine rankEntry_distinct top e.1 e.2 h3 ?_
    intro s hs hs0 heq
    apply hk
    rw [← heq]
    exact List.mem_map.2 ⟨_, h2 s hs hs0, rfl⟩
  · intro x hx
    rw [rankEntry_head top e.1 e.2 hne]
    rcases List.mem_append.1 hx with hx | hx
    · have := h4 x hx
      omega
    · rw [List.mem_singleton.1 hx]
      omega

theorem RankInv_foldl (order : List (List Byte × Nat)) :
    ∀ (top : List Top) (seen : List (List Byte × Nat)), RankInv top seen → top ≠ [] →
      ((seen ++ order).map Prod.fst).Nodup →
      RankInv (order.foldl (fun top e => rankEntry top e.1 e.2) top) (seen ++ order) ∧
      (order.foldl (fun top e => rankEntry top e.1 e.2) top).length = top.length := by
  induction order with
  | nil =>
    intro top seen h _ _
    simpa using h
  | cons e rest ih =>
    intro top seen h hne hnd
    have hk : e.1 ∉ seen.map Prod.fst := by
      rw [List.map_append, List.map_cons] at hnd
      have := (List.nodup_append.1 hnd).2.2
      intro hmem
      exact this hmem (List.mem_cons_self _ _)
    have hlen := rankEntry_length top e.1 e.2
    have hne2 : rankEntry top e.1 e.2 ≠ [] := by
      intro h0
      rw [h0] at hlen
      exact hne (List.length_eq_zero.1 hlen.symm)
    have hnd2 : (((seen ++ [e]) ++ rest).map Prod.fst).Nodup := by
      simpa using hnd
    obtain ⟨r1, r2⟩ := ih (rankEntry top e.1 e.2) (seen ++ [e])
      (RankInv_rankEntry top seen e h hne hk) hne2 hnd2
    rw [List.foldl_cons]
    refine ⟨?_, by rw [r2, hlen]⟩
    simpa using r1

/-- C18. For every host-name histogram with one entry per name and counts of 1
or more, and every order in which `range` yields its entries, the top-5
computation on five fresh slots leaves five slots whose counts do not increase
from slot 0 to slot 4; slot 0 has the maximum count of the histogram (0 when the
histogram is empty); every slot with a non-zero count is an entry of the
histogram; and no host name is in two such slots. -/
theorem computeTop5_shape (a : asyncStater) (order : List (List Byte × Nat))
    (htop : a.hostNameTop = List.replicate 5 {}) (hperm : order.Perm a.hostNameHist)
    (hkeys : (a.hostNameHist.map Prod.fst).Nodup) (hpos : ∀ e ∈ a.hostNameHist, 1 ≤ e.2) :
    (computeTop5 a order).hostNameTop.length = 5 ∧
    (computeTop5 a order).hostNameTop.Pairwise (fun s t => t.Count ≤ s.Count) ∧
    (∀ e ∈ a.hostNameHist, e.2 ≤ ((computeTop5 a order).hostNameTop.headD {}).Count) ∧
    (a.hostNameHist = [] → ((computeTop5 a order).hostNameTop.headD {}).Count = 0) ∧
    (a.hostNameHist ≠ [] →
      ∃ e ∈ a.hostNameHist, e.2 = ((computeTop5 a order).hostNameTop.headD {}).Count) ∧
    (∀ s ∈ (computeTop5 a order).hostNameTop, s.Count ≠ 0 →
      (s.Hostname, s.Count) ∈ a.hostNameHist) ∧
    (computeTop5 a order).hostNameTop.Pairwise
      (fun s t => s.Count ≠ 0 → t.Count ≠ 0 → s.Hostname ≠ t.Hostname) := by
  have hinit : RankInv (List.replicate 5 ({} : Top)) [] := by
    refine ⟨by decide, ?_, ?_, by simp⟩
    · intro s hs hs0
      rw [List.eq_of_mem_replicate hs] at hs0
      exact absurd rfl hs0
    · refine List.pairwise_replicate.2 (Or.inr ?_)
      intro h0
      exact absurd rfl h0
  have hnd : (([] ++ order).map Prod.fst).Nodup := by
    rw [List.nil_append]
    exact (hperm.map Prod.fst).nodup_iff.2 hkeys
  obtain ⟨⟨r1, r2, r3, r4⟩, rlen⟩ :=
    RankInv_foldl order (List.replicate 5 {}) [] hinit (by decide) hnd
  rw [List.nil_append] at r2 r4
  have hslots : (computeTop5 a order).hostNameTop =
      order.foldl (fun top e => rankEntry top e.1 e.2) (List.replicate 5 {}) := by
    simp only [computeTop5, htop]
  rw [hslots]
  have hbound : ∀ e ∈ a.hostNameHist, e.2 ≤
      ((order.foldl (fun top e => rankEntry top e.1 e.2) (List.replicate 5 {})).headD {}).Count :=
    fun e he => r4 e (hperm.mem_iff.2 he)
  have hin : ∀ s ∈ order.foldl (fun top e => rankEntry top e.1 e.2) (List.replicate 5 {}),
      s.Count ≠ 0 → (s.Hostname, s.Count) ∈ a.hostNameHist :=
    fun s hs hs0 => hperm.mem_iff.1 (r2 s hs hs0)
  refine ⟨by rw [rlen]; rfl, r1, hbound, ?_, ?_, hin, r3⟩
  · intro hempty
    rw [hempty] at hperm
    rw [hperm.eq_nil]
    rfl
  · intro hne
    obtain ⟨e, he⟩ := List.exists_mem_of_ne_nil _ hne
    have h1 := hpos e he
    have h2 := hbound e he
    generalize hS : order.foldl (fun top e => rankEntry top e.1 e.2) (List.replicate 5 {}) = S
      at h2 hin rlen
    cases S with
    | nil => simp at rlen
    | cons s0 rest =>
      simp only [List.headD_cons] at h2 ⊢
      exact ⟨(s0.Hostname, s0.Count), hin s0 (List.mem_cons_self _ _) (by omega), rfl⟩

theorem computeTop5_shape_witness :
    (computeTop5 NewAsyncStater [([0x61, 0x2E], 1), ([0x62, 0x2E], 2)]).hostNameTop.length = 5 ∧
    (computeTop5 NewAsyncStater [([0x61, 0x2E], 1), ([0x62, 0x2E], 2)]).hostNameTop.Pairwise
      (fun s t => t.Count ≤ s.Count) :=
  have h := computeTop5_shape
    { NewAsyncStater with hostNameHist := [([0x62, 0x2E], 2), ([0x61, 0x2E], 1)] }
    [([0x61, 0x2E], 1), ([0x62, 0x2E], 2)] rfl (List.Perm.swap _ _ _) (by decide) (by decide)
  ⟨h.1, h.2.1⟩

/-! ## The decoder on slices with spare capacity -/

theorem Buf_slice_ok (b r : Buf) (lo hi : Nat) (h : b.slice lo hi = .ok r) :
    lo ≤ hi ∧ hi ≤ b.cap ∧
    r = { bytes := (b.backing.drop lo).take (hi - lo), spare := b.backing.drop hi } := by
  unfold Buf.slice at h
  split at h
  · rename_i hc
    exact ⟨hc.1, hc.2, (Except.ok.inj h).symm⟩
  · cases h

theorem Buf_decodeHeader_udp (b : Buf) :
    Buf.decodeHeader b false =
      if 12 ≤ b.bytes.length then
        .ok (headerOf false 0 b.bytes, { bytes := b.bytes.drop 12, spare := b.spare })
      else .error .outOfBounds := by
  rcases b with ⟨bytes, spare⟩
  rcases bytes with _ | ⟨a0, _ | ⟨a1, _ | ⟨a2, _ | ⟨a3, _ | ⟨a4, _ | ⟨a5, _ | ⟨a6, _ | ⟨a7,
    _ | ⟨a8, _ | ⟨a9, _ | ⟨a10, _ | ⟨a11, rest⟩⟩⟩⟩⟩⟩⟩⟩⟩⟩⟩⟩
  case cons.cons.cons.cons.cons.cons.cons.cons.cons.cons.cons.cons =>
    simp_arith [Buf.decodeHeader, Buf.slice, Buf.cap, Buf.len, Buf.backing, Buf.Uint16,
      Uint16_pair, decodeFlags_pair, headerOf, be16, bind, Except.bind, pure, Except.pure]
  all_goals
    simp [Buf.decodeHeader, Buf.slice, Buf.cap, Buf.len, Buf.backing, Buf.Uint16, Uint16_pair,
      decodeFlags_pair, headerOf, be16, bind, Except.bind, pure, Except.pure]
  all_goals (repeat' split)
  all_goals rfl

theorem Buf_decodeHeader_tcp (b : Buf) :
    Buf.decodeHeader b true =
      if 14 ≤ b.bytes.length then
        .ok (headerOf true (be16 b.bytes 0) (b.bytes.drop 2),
             { bytes := b.bytes.drop 14, spare := b.spare })
      else .error .outOfBounds := by
  rcases b with ⟨bytes, spare⟩
  rcases bytes with _ | ⟨p0, _ | ⟨p1, _ | ⟨a0, _ | ⟨a1, _ | ⟨a2, _ | ⟨a3, _ | ⟨a4, _ | ⟨a5,
    _ | ⟨a6, _ | ⟨a7, _ | ⟨a8, _ | ⟨a9, _ | ⟨a10, _ | ⟨a11, rest⟩⟩⟩⟩⟩⟩⟩⟩⟩⟩⟩⟩⟩⟩
  case cons.cons.cons.cons.cons.cons.cons.cons.cons.cons.cons.cons.cons.cons =>
    simp_arith [Buf.decodeHeader, Buf.slice, Buf.cap, Buf.len, Buf.backing, Buf.Uint16,
      Uint16_pair, decodeFlags_pair, headerOf, be16, bind, Except.bind, pure, Except.pure]
  all_goals
    simp [Buf.decodeHeader, Buf.slice, Buf.cap, Buf.len, Buf.backing, Buf.Uint16, Uint16_pair,
      decodeFlags_pair, headerOf, be16, bind, Except.bind, pure, Except.pure]
  all_goals (repeat' split)
  all_goals rfl

/-- The decoder on any slice, as a function of its length and of the QR bit. -/
theorem Buf_DecodePayload_eq (fuel : Nat) (b : Buf) (tcp : Bool) :
    Buf.DecodePayload fuel b tcp =
      if (if tcp then 14 else 12) ≤ b.bytes.length then
        if ((b.bytes.drop (if tcp then 2 else 0)).getD 2 0).val.testBit 7 = false then
          Buf.decodeQuestion fuel
            { bytes := b.bytes.drop (if tcp then 14 else 12), spare := b.spare }
            (headerOf tcp (if tcp then be16 b.bytes 0 else 0)
              (b.bytes.drop (if tcp then 2 else 0)))
        else
          some (.ok (headerOf tcp (if tcp then be16 b.bytes 0 else 0)
            (b.bytes.drop (if tcp then 2 else 0))))
      else some (.error .outOfBounds) := by
  unfold Buf.DecodePayload
  cases tcp
  · rw [Buf_decodeHeader_udp]
    by_cases h : 12 ≤ b.bytes.length
    · simp only [h, if_true, headerOf_Type, Bool.false_eq_true, if_false, List.drop_zero]
    · simp only [h, if_false, Bool.false_eq_true]
  · rw [Buf_decodeHeader_tcp]
    by_cases h : 14 ≤ b.bytes.length
    · simp only [h, if_true, headerOf_Type]
    · simp only [h, if_false, if_true]

theorem Buf_scanName_succ (buffer : Buf) (fuel i : Nat) (b : List Byte)
    (hi : i < buffer.bytes.length) :
    Buf.scanName buffer (fuel + 1) i b =
      match Buf.loopBody buffer i b with
      | .error e => some (.error e)
      | .ok (.done trunc b) => some (.ok (trunc, b))
      | .ok (.next i b) => Buf.scanName buffer fuel i b := by
  rw [Buf.scanName]
  simp only [Buf.len, hi, if_true]

theorem Buf_scanName_zero (buffer : Buf) (i : Nat) (b : List Byte)
    (hi : i < buffer.bytes.length) : Buf.scanName buffer 0 i b = none := by
  rw [Buf.scanName]
  simp only [Buf.len, hi, if_true]

theorem Buf_scanName_empty (buffer : Buf) (fuel : Nat) (b : List Byte)
    (h : buffer.bytes = []) : Buf.scanName buffer fuel 0 b = some (.ok (0, b)) := by
  cases fuel <;> simp [Buf.scanName, Buf.len, h]

/-- A loop body that ends in `break` has taken the label branch: the builder
ends with a dot, `trunc` is at least two past the cursor and one past a zero
octet below the length. A loop body that ends without `break` leaves the cursor
below the length. -/
theorem Buf_loopBody_ok (buffer : Buf) (i : Nat) (b : List Byte) (r : LoopStep)
    (h : Buf.loopBody buffer i b = .ok r) :
    match r with
    | .done trunc b2 =>
      i + 2 ≤ trunc ∧ trunc ≤ buffer.bytes.length ∧ (∃ s, b2 = s ++ [dot]) ∧
        buffer.bytes.get? (trunc - 1) = some 0
    | .next i2 _ => i ≤ i2 ∧ i2 < buffer.bytes.length := by
  unfold Buf.loopBody at h
  simp only [bind, Except.bind, pure, Except.pure] at h
  split at h
  · cases h
  rename_i cur hcur
  split at h
  · rename_i hlabel
    split at h
    · cases h
    rename_i strBytes hs
    split at h
    · cases h
    rename_i cur2 hcur2
    have hlt := index_ok _ _ _ hcur2
    split at h
    · rename_i hz
      cases h
      refine ⟨by omega, by omega, ⟨b ++ strBytes.bytes, rfl⟩, ?_⟩
      unfold index at hcur2
      split at hcur2
      · rename_i x hx
        cases hcur2
        rw [Nat.add_sub_cancel, hx]
        exact congrArg some (Fin.ext hz.symm)
      · cases hcur2
    · cases h
      exact ⟨by omega, hlt⟩
  · rename_i hlabel
    split at h
    · cases h
    rename_i cur2 hcur2
    have hc : cur2 = cur := (Except.ok.inj hcur2).symm
    split at h
    · rename_i hz
      exfalso
      apply hlabel
      rw [hc] at hz
      rw [← hz]
      exact (Nat.zero_and _).symm
    · cases h
      exact ⟨Nat.le_refl _, index_ok _ _ _ hcur⟩

theorem Buf_scanName_ok (buffer : Buf) :
    ∀ (fuel i : Nat) (b : List Byte) (trunc : Nat) (b2 : List Byte), i < buffer.bytes.length →
      Buf.scanName buffer fuel i b = some (.ok (trunc, b2)) →
      i + 2 ≤ trunc ∧ trunc ≤ buffer.bytes.length ∧ (∃ s, b2 = s ++ [dot]) ∧
        buffer.bytes.get? (trunc - 1) = some 0 := by
  intro fuel
  induction fuel with
  | zero =>
    intro i b trunc b2 hi h
    rw [Buf_scanName_zero _ _ _ hi] at h
    cases h
  | succ n ih =>
    intro i b trunc b2 hi h
    rw [Buf_scanName_succ _ _ _ _ hi] at h
    split at h
    · cases h
    · rename_i t b3 hb
      cases h
      exact Buf_loopBody_ok _ _ _ _ hb
    · rename_i i3 b3 hb
      have hi3 : i ≤ i3 ∧ i3 < buffer.bytes.length := Buf_loopBody_ok _ _ _ _ hb
      obtain ⟨h1, h2, h3⟩ := ih i3 b3 trunc b2 hi3.2 h
      exact ⟨by omega, h2, h3⟩

/-- The statements after the loop return only on a slice with a capacity of four
octets or more, and read the type and the class from the first four octets of
its backing array. -/
theorem Buf_finishQuestion_ok (buffer : Buf) (d q : Query) (trunc : Nat) (b : List Byte)
    (h : Buf.finishQuestion buffer d trunc b = .ok q) :
    4 ≤ buffer.cap ∧
    q = { d with
          Question :=
            { QueryName := b
              Type_ := (QTypes.lookup (be16 buffer.backing 0)).getD ""
              Class := (QTypes.lookup (be16 buffer.backing 2)).getD "" } } := by
  unfold Buf.finishQuestion at h
  simp only [bind, Except.bind, pure, Except.pure] at h
  split at h
  · cases h
  split at h
  · cases h
  rename_i qt hqt
  split at h
  · cases h
  rename_i qc hqc
  split at hqt
  · cases hqt
  rename_i s1 hs1
  split at hqc
  · cases hqc
  rename_i s2 hs2
  obtain ⟨_, _, e1⟩ := Buf_slice_ok _ _ _ _ hs1
  obtain ⟨_, hcap, e2⟩ := Buf_slice_ok _ _ _ _ hs2
  have hlen : 4 ≤ buffer.backing.length := by
    simp only [Buf.backing, List.length_append]
    exact hcap
  refine ⟨hcap, ?_⟩
  generalize buffer.backing = back at e1 e2 hlen ⊢
  rcases back with _ | ⟨a0, _ | ⟨a1, _ | ⟨a2, _ | ⟨a3, rest⟩⟩⟩⟩
  · simp at hlen
  · simp at hlen
  · simp at hlen
  · simp at hlen
  · subst e1 e2
    simp only [Buf.Uint16, List.drop_zero, Nat.sub_zero, List.take_succ_cons, List.take_zero,
      List.drop_succ_cons, Uint16_pair, Except.ok.injEq] at hqt hqc
    subst hqt hqc
    cases h
    simp [be16, match_getD]

/-- A returned question, in terms of the slice and of the outcome of the name
loop. -/
theorem Buf_decodeQuestion_ok (fuel : Nat) (buffer : Buf) (d q : Query)
    (h : Buf.decodeQuestion fuel buffer d = some (.ok q)) :
    ∃ trunc b, Buf.scanName buffer fuel 0 [] = some (.ok (trunc, b)) ∧ 4 ≤ buffer.cap ∧
      q = { d with
            Question :=
              { QueryName := b
                Type_ := (QTypes.lookup (be16 buffer.backing 0)).getD ""
                Class := (QTypes.lookup (be16 buffer.backing 2)).getD "" } } := by
  unfold Buf.decodeQuestion at h
  split at h
  · cases h
  · cases h
  · rename_i trunc b hs
    obtain ⟨h4, hq⟩ := Buf_finishQuestion_ok _ _ _ _ _ (Option.some.inj h)
    exact ⟨trunc, b, hs, h4, hq⟩

/-! ## The two models agree on a buffer without spare capacity -/

theorem Buf_slice_nil_spare (b : List Byte) (lo hi : Nat) :
    Buf.slice { bytes := b, spare := [] } lo hi =
      match slice b lo hi with
      | .ok l => .ok { bytes := l, spare := b.drop hi }
      | .error e => .error e := by
  unfold Buf.slice slice
  by_cases h : lo ≤ hi ∧ hi ≤ b.length
  · simp [h, Buf.cap, Buf.backing]
  · simp [h, Buf.cap, Buf.backing]

theorem Buf_loopBody_nil_spare (buffer : List Byte) (i : Nat) (b : List Byte) :
    Buf.loopBody { bytes := buffer, spare := [] } i b = loopBody buffer i b := by
  unfold Buf.loopBody loopBody
  simp only [Buf_slice_nil_spare, bind, Except.bind, pure, Except.pure]
  split
  · rfl
  rename_i cur _
  by_cases hl : 0 = (cur.val &&& ANLabelMask)
  · simp only [hl, if_true]
    cases slice buffer (i + 1) (i + 1 + cur.val) <;> rfl
  · simp only [hl, if_false]

theorem Buf_scanName_nil_spare (buffer : List Byte) :
    ∀ (fuel i : Nat) (b : List Byte),
      Buf.scanName { bytes := buffer, spare := [] } fuel i b = scanName buffer fuel i b := by
  intro fuel
  induction fuel with
  | zero =>
    intro i b
    rw [Buf.scanName, scanName]
    rfl
  | succ n ih =>
    intro i b
    rw [Buf.scanName, scanName]
    simp only [Buf.len, Buf_loopBody_nil_spare]
    by_cases hi : i < buffer.length
    · simp only [hi, if_true]
      split
      · rfl
      · rfl
      · exact ih _ _
    · simp only [hi, if_false]

theorem Buf_finishQuestion_nil_spare (buffer : List Byte) (d : Query) (trunc : Nat)
    (b : List Byte) :
    Buf.finishQuestion { bytes := buffer, spare := [] } d trunc b =
      finishQuestion buffer d trunc b := by
  unfold Buf.finishQuestion finishQuestion
  simp only [Buf_slice_nil_spare, Buf.len, Buf.Uint16, bind, Except.bind, pure, Except.pure]
  cases slice buffer trunc buffer.length with
  | error e => rfl
  | ok v =>
    cases slice buffer 0 2 with
    | error e => rfl
    | ok v1 =>
      cases slice buffer 2 4 with
      | error e => simp only []
      | ok v2 => rfl

theorem Buf_decodeQuestion_nil_spare (fuel : Nat) (buffer : List Byte) (d : Query) :
    Buf.decodeQuestion fuel { bytes := buffer, spare := [] } d = decodeQuestion fuel buffer d := by
  unfold Buf.decodeQuestion decodeQuestion
  rw [Buf_scanName_nil_spare]
  split
  · rfl
  · rfl
  · rw [Buf_finishQuestion_nil_spare]

/-- On a buffer whose capacity is its length, the decoder on slices is the
decoder on lists of octets. -/
theorem Buf_DecodePayload_nil_spare (fuel : Nat) (b : List Byte) (tcp : Bool) :
    Buf.DecodePayload fuel { bytes := b, spare := [] } tcp = DecodePayload fuel b tcp := by
  rw [Buf_DecodePayload_eq]
  cases tcp
  · rw [DecodePayload_udp]
    simp only [Bool.false_eq_true, if_false, List.drop_zero, Buf_decodeQuestion_nil_spare]
  · rw [DecodePayload_tcp]
    have e : (b.drop 2).getD 2 0 = b.getD 4 0 := by
      simp [List.getD_eq_getElem?_getD, List.getElem?_drop]
    simp only [if_true, e, Buf_decodeQuestion_nil_spare]

/-! ## The type is read at the start of the question -/

/-- C16. For every question slice on which `decodeQuestion` returns, the slice
has a capacity of four octets or more and `Question.Type` is the `QTypes` name
of the big-endian 16-bit value at offsets 0-1 from the start of the slice, empty
when that value is not a key of `QTypes`. When the slice is not empty these two
octets lie below its length, and the name loop has ended on a zero octet at
offset 1 or later (`trunc` is 2 or more), so the two octets that follow that
zero octet lie at offsets 2 or later. Any other returning decode of a slice with
the same two first octets gives the same `Question.Type`, whatever follows
them. -/
theorem decodeQuestion_type_from_offset_zero (fuel : Nat) (buffer : Buf) (d q : Query)
    (h : Buf.decodeQuestion fuel buffer d = some (.ok q)) :
    4 ≤ buffer.cap ∧
    q.Question.Type_ = (QTypes.lookup (be16 buffer.backing 0)).getD "" ∧
    (QTypes.lookup (be16 buffer.backing 0) = none → q.Question.Type_ = "") ∧
    (buffer.bytes ≠ [] →
      2 ≤ buffer.len ∧
      q.Question.Type_ = (QTypes.lookup (be16 buffer.bytes 0)).getD "" ∧
      ∃ trunc b, Buf.scanName buffer fuel 0 [] = some (.ok (trunc, b)) ∧
        2 ≤ trunc ∧ trunc ≤ buffer.len ∧ buffer.bytes.get? (trunc - 1) = some 0) ∧
    (∀ (fuel2 : Nat) (buffer2 : Buf) (d2 q2 : Query),
      Buf.decodeQuestion fuel2 buffer2 d2 = some (.ok q2) →
      buffer2.backing.take 2 = buffer.backing.take 2 →
      q2.Question.Type_ = q.Question.Type_) := by
  obtain ⟨trunc, bn, hs, h4, hq⟩ := Buf_decodeQuestion_ok fuel buffer d q h
  have hT : q.Question.Type_ = (QTypes.lookup (be16 buffer.backing 0)).getD "" := by rw [hq]
  refine ⟨h4, hT, ?_, ?_, ?_⟩
  · intro hn
    rw [hT, hn]
    rfl
  · intro hne
    have hpos : 0 < buffer.bytes.length := List.length_pos.2 hne
    obtain ⟨ht2, htl, _, hz⟩ := Buf_scanName_ok buffer fuel 0 [] trunc bn hpos hs
    have h2 : 2 ≤ buffer.bytes.length := by omega
    refine ⟨h2, ?_, trunc, bn, hs, ht2, htl, hz⟩
    rw [hT]
    have hb : be16 buffer.backing 0 = be16 buffer.bytes 0 := by
      unfold Buf.backing
      rcases hbytes : buffer.bytes with _ | ⟨a0, _ | ⟨a1, r⟩⟩
      · rw [hbytes] at h2; simp at h2
      · rw [hbytes] at h2; simp at h2
      · rfl
    rw [hb]
  · intro fuel2 buffer2 d2 q2 h2 htake
    obtain ⟨_, _, _, h42, hq2⟩ := Buf_decodeQuestion_ok fuel2 buffer2 d2 q2 h2
    have hT2 : q2.Question.Type_ = (QTypes.lookup (be16 buffer2.backing 0)).getD "" := by
      rw [hq2]
    have hl1 : 4 ≤ buffer.backing.length := by
      simp only [Buf.backing, List.length_append]; exact h4
    have hl2 : 4 ≤ buffer2.backing.length := by
      simp only [Buf.backing, List.length_append]; exact h42
    have hbe : be16 buffer2.backing 0 = be16 buffer.backing 0 := by
      generalize buffer.backing = k1 at htake hl1 ⊢
      generalize buffer2.backing = k2 at htake hl2 ⊢
      rcases k1 with _ | ⟨a0, _ | ⟨a1, r⟩⟩
      · simp at hl1
      · simp at hl1
      rcases k2 with _ | ⟨c0, _ | ⟨c1, r2⟩⟩
      · simp at hl2
      · simp at hl2
      simp only [List.take_succ_cons, List.take_zero, List.cons.injEq, and_true] at htake
      obtain ⟨e0, e1⟩ := htake
      subst e0 e1
      rfl
    rw [hT2, hT, hbe]

theorem decodeQuestion_type_from_offset_zero_witness :
    ∃ q, Buf.decodeQuestion 2
        { bytes := [0x00, 0x01, 0x01, 0x00, 0x01], spare := [0xFF] } {} = some (.ok q) ∧
      q.Question.Type_ = "A" ∧ q.Question.QueryName = [dot, 0x01, dot] := by
  have h := decodeQuestion_type_from_offset_zero 2
    { bytes := [0x00, 0x01, 0x01, 0x00, 0x01], spare := [0xFF] } {} _ rfl
  exact ⟨_, rfl, h.2.1.trans (by decide), rfl⟩

/-! ## Decoded queries and the host-name histogram -/

/-- C20 (the claim as stated fails). The query `headerOnlyQuery` ends with its
header and is held in a slice with four octets of spare capacity: the name loop
is not entered, the type and class reads succeed on the spare octets, and
`DecodePayload` returns a `Query` with `Type = "Query"` and an empty `QueryName`,
which one body of the consumer loop does not enter into `hostNameHist`. So not
every returned query has a non-empty name that ends with a dot. -/
theorem headerOnlyQuery_empty_name :
    (∃ q, Buf.DecodePayload 0 headerOnlyQuery false = some (.ok q) ∧
      q.Type_ = "Query" ∧ q.Question.QueryName = [] ∧
      (startBody NewAsyncStater q).hostNameHist = []) ∧
    ¬ (∀ (fuel : Nat) (b : Buf) (tcp : Bool) (q : Query),
        Buf.DecodePayload fuel b tcp = some (.ok q) → q.Type_ = "Query" →
        q.Question.QueryName ≠ [] ∧ q.Question.QueryName.getLast? = some dot) := by
  refine ⟨⟨_, rfl, rfl, rfl, rfl⟩, ?_⟩
  intro hall
  exact (hall 0 headerOnlyQuery false _ rfl rfl).1 rfl

/-- C20 (amended). For every slice and transport flag on which `DecodePayload`
returns a `Query` with `Type = "Query"`, and whose length exceeds the header (12
octets, 14 with the TCP prefix), `Question.QueryName` is not empty and its last
octet is the dot; one body of the consumer loop on that `Query` therefore adds
one to its entry in `hostNameHist`. -/
theorem DecodePayload_query_has_name (fuel : Nat) (b : Buf) (tcp : Bool) (q : Query)
    (h : Buf.DecodePayload fuel b tcp = some (.ok q)) (hT : q.Type_ = "Query")
    (hlen : (if tcp then 14 else 12) < b.len) :
    q.Question.QueryName ≠ [] ∧
    q.Question.QueryName.getLast? = some dot ∧
    (∀ a : asyncStater, histGet (startBody a q).hostNameHist q.Question.QueryName =
      some ((histGet a.hostNameHist q.Question.QueryName).getD 0 + 1)) := by
  rw [Buf_DecodePayload_eq] at h
  have hle : (if tcp then 14 else 12) ≤ b.bytes.length := Nat.le_of_lt hlen
  rw [if_pos hle] at h
  have hd : Buf.decodeQuestion fuel
      { bytes := b.bytes.drop (if tcp then 14 else 12), spare := b.spare }
      (headerOf tcp (if tcp then be16 b.bytes 0 else 0)
        (b.bytes.drop (if tcp then 2 else 0))) = some (.ok q) := by
    by_cases hq : ((b.bytes.drop (if tcp then 2 else 0)).getD 2 0).val.testBit 7 = false
    · rw [if_pos hq] at h
      exact h
    · rw [if_neg hq] at h
      cases h
      exact absurd ((headerOf_Type _ _ _).1 hT) hq
  obtain ⟨trunc, bn, hs, _, hq⟩ := Buf_decodeQuestion_ok _ _ _ _ hd
  have hpos : 0 < (b.bytes.drop (if tcp then 14 else 12)).length := by
    rw [List.length_drop]
    exact Nat.sub_pos_of_lt hlen
  obtain ⟨_, _, ⟨s, hdot⟩, _⟩ := Buf_scanName_ok _ fuel 0 [] trunc bn hpos hs
  have hn : q.Question.QueryName = s ++ [dot] := by rw [hq]; exact hdot
  have hne : q.Question.QueryName ≠ [] := by rw [hn]; simp
  refine ⟨hne, ?_, ?_⟩
  · rw [hn]; simp
  · intro a
    rw [startBody_hostNameHist, if_pos hne, histGet_histSet_self]

theorem DecodePayload_query_has_name_witness :
    ∃ q, Buf.DecodePayload 2 { bytes := exampleQuery, spare := [0xFF, 0xFF] } false =
        some (.ok q) ∧
      q.Question.QueryName ≠ [] ∧ q.Question.QueryName.getLast? = some dot ∧
      histGet (startBody NewAsyncStater q).hostNameHist q.Question.QueryName = some 1 := by
  obtain ⟨h1, h2, h3⟩ := DecodePayload_query_has_name 2
    { bytes := exampleQuery, spare := [0xFF, 0xFF] } false _ rfl rfl (by decide)
  exact ⟨_, rfl, h1, h2, h3 NewAsyncStater⟩

end dns
